import Mathlib

/-!
Shallow embedding of the `lru` package of `grpc-cache` (file `lru/lru.go`)
and the counter codec it exposes.

Representation choices:
* Bytes (`[]byte`) are `List Nat`, each element a byte value (`< 256` for
  bytes produced by the code).
* `time.Time` / `time.Duration` are `Nat` (an instant, resp. a duration, in
  nanoseconds); every operation takes the current instant `now` explicitly,
  standing for Go's `time.Now()`, and `time.Since(t)` is `now - t`.
* Go `uint64` values are `Nat` with arithmetic reduced `% 2^64` wherever the
  Go code can overflow.
* The Go `Cache` keeps a doubly-linked recency list `lruList` and a map
  `cache` from key to list element, always holding the same entries.  The
  embedding merges the pair into one list `List Entry`, front = most
  recently used; map lookup is search by key.  `FlushAll` sets both Go
  structures to `nil`, which is observably different from empty (writing to
  a nil map or pushing onto a nil list panics), so the entry structures are
  an `Option (List Entry)`: `none` models the nil'd state.
* A Go panic is modelled by an operation returning `none` at the outer
  `Option`; the error value a call returns is an inner `Option Err`.
* The eviction handler is modelled by returning the list of eviction
  notifications (key, value, reason) the call fires, in order.
-/

namespace GrpcCache

/-- Byte strings (`[]byte`). -/
abbrev Bytes := List Nat

/-- 2^64, the modulus of Go's `uint64` arithmetic. -/
def U64 : Nat := 2 ^ 64

/-- Reasons passed to the eviction handler (`LRUEviction`, `TTLEviction`). -/
inductive EvictionReason where
  | LRUEviction
  | TTLEviction
deriving DecidableEq, Repr

/-- One eviction notification: the arguments of a `HandleEviction` call. -/
structure Evt where
  key : String
  value : Bytes
  reason : EvictionReason
deriving DecidableEq, Repr

/-- Error kinds returned by cache operations: `ErrNotFound`, `ErrExists`,
and the decode errors `BytesToUint64` can surface in Increment/Decrement. -/
inductive Err where
  | NotFound
  | Exists
  | DecodeErr
deriving DecidableEq, Repr

/-- Translation of `entry`: one cached item. -/
structure Entry where
  key : String
  value : Bytes
  cas : Nat
  ttl : Nat
  createdAt : Nat
deriving DecidableEq, Repr

/-- Translation of `Cache` (without the embedded mutex, which carries no
state relevant to the semantics).  `entries` merges `lruList` and `cache`
(front of the list = front of the LRU); `entries = none` models both
structures being `nil`, as `FlushAll` leaves them. -/
structure Cache where
  maxEntries : Nat
  entries : Option (List Entry)
  casID : Nat
deriving DecidableEq, Repr

/-- Translation of `New`: fresh cache with empty (non-nil) structures. -/
def New (maxEntries : Nat) : Cache :=
  { maxEntries := maxEntries, entries := some [], casID := 0 }

/-- Map lookup `c.cache[key]`; reading a nil map yields a miss. -/
def Cache.mapLookup (c : Cache) (key : String) : Option Entry :=
  match c.entries with
  | none => none
  | some es => es.find? (fun e => e.key == key)

/-- Translation of `nextCasID`: increment the `uint64` counter and return
its new value. -/
def Cache.nextCasID (c : Cache) : Nat × Cache :=
  let n := (c.casID + 1) % U64
  (n, { c with casID := n })

/-- Translation of `isExpired`: an entry with `ttl = 0` never expires,
otherwise it is expired once `time.Since(createdAt) > ttl` (strictly). -/
def isExpired (now : Nat) (e : Entry) : Bool :=
  if e.ttl = 0 then false
  else decide (now - e.createdAt > e.ttl)

/-- The list side of `lruList.MoveToFront` for the element keyed `k`:
detach the node and reattach it at the front, all other nodes keeping
their relative order. -/
def moveToFront (es : List Entry) (k : String) : List Entry :=
  match es.find? (fun e => e.key == k) with
  | none => es
  | some e => e :: es.filter (fun e2 => !(e2.key == k))

/-- Translation of `Set`.  Overwrite branch: move the node to the front and
update value/ttl/createdAt/cas in place.  New-key branch: push a fresh node
at the front; if the capacity bound is now exceeded, fire the eviction
handler with the back node's key/value and `LRUEviction`, then remove that
back node (`removeElement`: unlink from the list and delete its key from
the map — on the merged representation, drop the last node).  Returns
`none` when the Go code panics: after `FlushAll` the map and list are nil,
the lookup misses and `PushFront` dereferences the nil list. -/
def Cache.Set (c : Cache) (now : Nat) (key : String) (value : Bytes) (ttl : Nat) :
    Option (Cache × List Evt) :=
  match c.entries with
  | none => none
  | some es =>
    match es.find? (fun e => e.key == key) with
    | some e =>
      let (n, c1) := c.nextCasID
      let e1 := { e with value := value, ttl := ttl, createdAt := now, cas := n }
      some ({ c1 with entries := some (e1 :: es.filter (fun e2 => !(e2.key == key))) }, [])
    | none =>
      let (n, c1) := c.nextCasID
      let e1 : Entry := { key := key, value := value, ttl := ttl, createdAt := now, cas := n }
      let es1 := e1 :: es
      if c.maxEntries ≠ 0 ∧ es1.length > c.maxEntries then
        match es1.getLast? with
        | some back =>
          some ({ c1 with entries := some es1.dropLast }, [⟨back.key, back.value, .LRUEviction⟩])
        | none => some ({ c1 with entries := some es1 }, [])
      else
        some ({ c1 with entries := some es1 }, [])

/-- Translation of `Touch`: if the key is in the map (expired or not),
re-`Set` it with its current value and the new ttl; otherwise `ErrNotFound`. -/
def Cache.Touch (c : Cache) (now : Nat) (key : String) (ttl : Nat) :
    Option (Cache × List Evt × Option Err) :=
  match c.mapLookup key with
  | some e => (c.Set now key e.value ttl).map (fun p => (p.1, p.2, none))
  | none => some (c, [], some .NotFound)

/-- Translation of `Add`: `Set` only if the key is absent from the map,
otherwise `ErrExists`. -/
def Cache.Add (c : Cache) (now : Nat) (key : String) (value : Bytes) (ttl : Nat) :
    Option (Cache × List Evt × Option Err) :=
  match c.mapLookup key with
  | none => (c.Set now key value ttl).map (fun p => (p.1, p.2, none))
  | some _ => some (c, [], some .Exists)

/-- Translation of `Replace`: `Set` only if the key is present in the map
(expiry is not consulted), otherwise `ErrNotFound`. -/
def Cache.Replace (c : Cache) (now : Nat) (key : String) (value : Bytes) (ttl : Nat) :
    Option (Cache × List Evt × Option Err) :=
  match c.mapLookup key with
  | some _ => (c.Set now key value ttl).map (fun p => (p.1, p.2, none))
  | none => some (c, [], some .NotFound)

/-- Translation of `Cas`: `Set` only if the key is present in the map and
its stored cas equals the supplied one; `ErrExists` on a mismatch,
`ErrNotFound` when absent. -/
def Cache.Cas (c : Cache) (now : Nat) (key : String) (value : Bytes) (ttl : Nat) (cas : Nat) :
    Option (Cache × List Evt × Option Err) :=
  match c.mapLookup key with
  | some e =>
    if e.cas = cas then (c.Set now key value ttl).map (fun p => (p.1, p.2, none))
    else some (c, [], some .Exists)
  | none => some (c, [], some .NotFound)

/-- Translation of `getElement`: look the key up in the map; if present and
expired, fire the eviction handler with `TTLEviction` and remove the entry,
reporting a miss; if present and live, move it to the front and return it. -/
def Cache.getElement (c : Cache) (now : Nat) (key : String) :
    Cache × List Evt × Option Entry :=
  match c.entries with
  | none => (c, [], none)
  | some es =>
    match es.find? (fun e => e.key == key) with
    | none => (c, [], none)
    | some e =>
      if isExpired now e then
        ({ c with entries := some (es.filter (fun e2 => !(e2.key == key))) },
         [⟨e.key, e.value, .TTLEviction⟩], none)
      else
        ({ c with entries := some (moveToFront es key) }, [], some e)

/-- Translation of `Get`: the element's value if `getElement` finds it,
otherwise `ErrNotFound` (the inner `Option Bytes` is `none`). -/
def Cache.Get (c : Cache) (now : Nat) (key : String) : Cache × List Evt × Option Bytes :=
  let r := c.getElement now key
  match r.2.2 with
  | some e => (r.1, r.2.1, some e.value)
  | none => (r.1, r.2.1, none)

/-- Translation of `Gets`: like `Get` but also returning the entry's cas. -/
def Cache.Gets (c : Cache) (now : Nat) (key : String) :
    Cache × List Evt × Option (Bytes × Nat) :=
  let r := c.getElement now key
  match r.2.2 with
  | some e => (r.1, r.2.1, some (e.value, e.cas))
  | none => (r.1, r.2.1, none)

/-- Translation of `Append`: on a live hit, `Set` the old value with the
given bytes appended; otherwise `ErrNotFound`. -/
def Cache.Append (c : Cache) (now : Nat) (key : String) (value : Bytes) (ttl : Nat) :
    Option (Cache × List Evt × Option Err) :=
  let r := c.getElement now key
  match r.2.2 with
  | some e => (r.1.Set now key (e.value ++ value) ttl).map (fun p => (p.1, r.2.1 ++ p.2, none))
  | none => some (r.1, r.2.1, some .NotFound)

/-- Translation of `Prepend`: on a live hit, `Set` the given bytes with the
old value appended; otherwise `ErrNotFound`. -/
def Cache.Prepend (c : Cache) (now : Nat) (key : String) (value : Bytes) (ttl : Nat) :
    Option (Cache × List Evt × Option Err) :=
  let r := c.getElement now key
  match r.2.2 with
  | some e => (r.1.Set now key (value ++ e.value) ttl).map (fun p => (p.1, r.2.1 ++ p.2, none))
  | none => some (r.1, r.2.1, some .NotFound)

/-- Go's `binary.MaxVarintLen64`. -/
def MaxVarintLen64 : Nat := 10

/-- The loop of `binary.PutUvarint` writing into the remaining `fuel` bytes
of the buffer: low 7 bits first, continuation bit `0x80` set on all but the
last byte.  The buffer has `MaxVarintLen64` bytes, so the loop body runs at
most that often on any `uint64` input; running out of fuel (only possible
for inputs `≥ 2^70`, which no `uint64` produces) models the out-of-range
buffer write Go would panic on by returning the bytes written so far. -/
def putUvarintAux : Nat → Nat → List Nat
  | 0, _ => []
  | fuel + 1, x =>
    if x < 0x80 then [x % 256]
    else ((x % 256) ||| 0x80) :: putUvarintAux fuel (x >>> 7)

/-- The byte sequence `binary.PutUvarint` writes for `x` (the written part
of the buffer). -/
def putUvarintBytes (x : Nat) : List Nat :=
  putUvarintAux MaxVarintLen64 x

/-- Translation of `Uint64ToBytes`: a `MaxVarintLen64`-byte buffer holding
the varint encoding of `n` followed by the untouched zero bytes. -/
def Uint64ToBytes (n : Nat) : Bytes :=
  putUvarintBytes n ++ List.replicate (MaxVarintLen64 - (putUvarintBytes n).length) 0

/-- The loop of `binary.ReadUvarint`, reading from the remaining bytes with
loop index `i`, accumulator `x` and shift `s`.  `none` models every error
return (EOF, unexpected EOF, and the two overflow checks).  Go tests the
loop guard `i < MaxVarintLen64` before reading a byte; matching on the byte
list first returns `none` in exactly the same cases (an empty rest is an
EOF error when the guard holds and the overflow error when it fails). -/
def readUvarintAux : List Nat → Nat → Nat → Nat → Option Nat
  | [], _, _, _ => none
  | b :: rest, i, x, s =>
    if i < MaxVarintLen64 then
      if b < 0x80 then
        if i = MaxVarintLen64 - 1 ∧ b > 1 then none
        else some ((x ||| (b <<< s)) % U64)
      else readUvarintAux rest (i + 1) ((x ||| ((b &&& 0x7f) <<< s)) % U64) (s + 7)
    else none

/-- Translation of `BytesToUint64`: run `binary.ReadUvarint` over the byte
slice; `none` is any error return. -/
def BytesToUint64 (b : Bytes) : Option Nat :=
  readUvarintAux b 0 0 0

/-- Update the entry keyed `k` in place (wherever its node sits), storing a
new value and cas; models the in-place mutation done by Increment and
Decrement after `getElement`. -/
def Cache.updateValueCas (c : Cache) (k : String) (v : Bytes) (n : Nat) : Cache :=
  { c with entries := c.entries.map (fun es =>
      es.map (fun e => if e.key == k then { e with value := v, cas := n } else e)) }

/-- Translation of `Increment`: on a live hit, decode the stored value as a
uint64, add `incrementBy` (wrapping), re-encode and store it in place with
a fresh cas.  A decode failure returns the decode error (after the recency
move `getElement` already performed); a miss returns `ErrNotFound`. -/
def Cache.Increment (c : Cache) (now : Nat) (key : String) (incrementBy : Nat) :
    Cache × List Evt × Option Err :=
  let r := c.getElement now key
  match r.2.2 with
  | none => (r.1, r.2.1, some .NotFound)
  | some e =>
    match BytesToUint64 e.value with
    | none => (r.1, r.2.1, some .DecodeErr)
    | some n =>
      let n1 := (n + incrementBy) % U64
      let b := Uint64ToBytes n1
      let (cid, c1) := r.1.nextCasID
      (c1.updateValueCas key b cid, r.2.1, none)

/-- Translation of `Decrement`: like `Increment` with wrapping subtraction
(`n - d` on `uint64` is `(n + 2^64 - d % 2^64) % 2^64` for `n < 2^64`). -/
def Cache.Decrement (c : Cache) (now : Nat) (key : String) (decrementBy : Nat) :
    Cache × List Evt × Option Err :=
  let r := c.getElement now key
  match r.2.2 with
  | none => (r.1, r.2.1, some .NotFound)
  | some e =>
    match BytesToUint64 e.value with
    | none => (r.1, r.2.1, some .DecodeErr)
    | some n =>
      let n1 := (n + (U64 - decrementBy % U64)) % U64
      let b := Uint64ToBytes n1
      let (cid, c1) := r.1.nextCasID
      (c1.updateValueCas key b cid, r.2.1, none)

/-- Translation of `Delete`: remove the entry if present (list unlink plus
map delete); no error and no eviction notification either way. -/
def Cache.Delete (c : Cache) (key : String) : Cache :=
  match c.entries with
  | none => c
  | some es =>
    match es.find? (fun e => e.key == key) with
    | some _ => { c with entries := some (es.filter (fun e2 => !(e2.key == key))) }
    | none => c

/-- Translation of `FlushAll`: set the recency list and the map to nil.
The cas counter keeps its value. -/
def Cache.FlushAll (c : Cache) : Cache :=
  { c with entries := none }

/-- The number of entries the cache currently holds. -/
def Cache.size (c : Cache) : Nat :=
  match c.entries with
  | none => 0
  | some es => es.length

/-- The operations of the Engine, with their arguments. -/
inductive Op where
  | set (key : String) (value : Bytes) (ttl : Nat)
  | touch (key : String) (ttl : Nat)
  | add (key : String) (value : Bytes) (ttl : Nat)
  | replace (key : String) (value : Bytes) (ttl : Nat)
  | cas (key : String) (value : Bytes) (ttl : Nat) (version : Nat)
  | get (key : String)
  | gets (key : String)
  | append (key : String) (value : Bytes) (ttl : Nat)
  | prepend (key : String) (value : Bytes) (ttl : Nat)
  | increment (key : String) (amount : Nat)
  | decrement (key : String) (amount : Nat)
  | delete (key : String)
  | flushAll
deriving DecidableEq, Repr

/-- The key an operation addresses (`""` for `flushAll`, which has none). -/
def Op.key : Op → String
  | .set k _ _ => k
  | .touch k _ => k
  | .add k _ _ => k
  | .replace k _ _ => k
  | .cas k _ _ _ => k
  | .get k => k
  | .gets k => k
  | .append k _ _ => k
  | .prepend k _ _ => k
  | .increment k _ => k
  | .decrement k _ => k
  | .delete k => k
  | .flushAll => ""

/-- One Engine call at instant `now`: the resulting cache, the eviction
notifications fired, and the error returned; the outer `none` models a
panic.  `Get`/`Gets` report `ErrNotFound` exactly when they return no
value. -/
def step (op : Op) (now : Nat) (c : Cache) : Option (Cache × List Evt × Option Err) :=
  match op with
  | .set k v t => (c.Set now k v t).map (fun p => (p.1, p.2, none))
  | .touch k t => c.Touch now k t
  | .add k v t => c.Add now k v t
  | .replace k v t => c.Replace now k v t
  | .cas k v t ver => c.Cas now k v t ver
  | .get k =>
    match c.Get now k with
    | (c1, evs, some _) => some (c1, evs, none)
    | (c1, evs, none) => some (c1, evs, some .NotFound)
  | .gets k =>
    match c.Gets now k with
    | (c1, evs, some _) => some (c1, evs, none)
    | (c1, evs, none) => some (c1, evs, some .NotFound)
  | .append k v t => c.Append now k v t
  | .prepend k v t => c.Prepend now k v t
  | .increment k a => some (c.Increment now k a)
  | .decrement k a => some (c.Decrement now k a)
  | .delete k => some (c.Delete k, [], none)
  | .flushAll => some (c.FlushAll, [], none)

/-- The cas versions assigned by the successful mutations of a run, in
order: each successful mutation sets the counter to the version it
assigns, and every other call leaves the counter untouched, so a call
changed the counter exactly when it assigned a version.  A panic aborts
the run. -/
def runVersions : List (Nat × Op) → Cache → List Nat
  | [], _ => []
  | (now, op) :: rest, c =>
    match step op now c with
    | none => []
    | some (c1, _, _) =>
      if c1.casID ≠ c.casID then c1.casID :: runVersions rest c1
      else runVersions rest c1

/-! ## Helper lemmas for the counter codec -/

lemma lor_shiftLeft_eq {x s : Nat} (d : Nat) (h : x < 2 ^ s) :
    x ||| (d <<< s) = x + d * 2 ^ s := by
  rw [Nat.shiftLeft_eq, Nat.lor_comm, Nat.mul_comm d (2 ^ s), ← Nat.mul_add_lt_is_or h d]
  omega

set_option maxRecDepth 8000 in
lemma byte_lor_not_lt : ∀ a < 256, ¬ ((a ||| 128) < 128) := by decide

set_option maxRecDepth 8000 in
lemma byte_lor_land : ∀ a < 256, ((a ||| 128) &&& 127) = a % 128 := by decide

lemma readUvarintAux_putUvarint :
    ∀ fuel m rest i x s, s = 7 * i → x < 2 ^ s → x + m * 2 ^ s < U64 →
    i + fuel = 10 → m < 2 ^ (7 * fuel) → (1 ≤ m ∨ fuel = 10) →
    readUvarintAux (putUvarintAux fuel m ++ rest) i x s = some (x + m * 2 ^ s) := by
  intro fuel
  induction fuel with
  | zero =>
    intro m rest i x s hs hx hbound hfuel hm hpos
    omega
  | succ fuel ih =>
    intro m rest i x s hs hx hbound hfuel hm hpos
    have hU : U64 = 18446744073709551616 := by norm_num [U64]
    by_cases hsmall : m < 128
    · rw [putUvarintAux, if_pos hsmall]
      simp only [List.singleton_append, readUvarintAux, MaxVarintLen64]
      have hm256 : m % 256 = m := Nat.mod_eq_of_lt (by omega)
      rw [hm256]
      rw [if_pos (show i < 10 by omega)]
      rw [if_pos (show m < 0x80 by omega)]
      have hguard : ¬ (i = 10 - 1 ∧ m > 1) := by
        rintro ⟨hi, hb⟩
        subst hi
        have hs63 : s = 63 := by omega
        subst hs63
        have h2 : 2 * 2 ^ 63 ≤ m * 2 ^ 63 := Nat.mul_le_mul_right _ (by omega)
        have h63 : (2 : ℕ) * 2 ^ 63 = 18446744073709551616 := by norm_num
        omega
      rw [if_neg hguard]
      rw [lor_shiftLeft_eq m hx, Nat.mod_eq_of_lt hbound]
    · rw [putUvarintAux, if_neg hsmall]
      simp only [List.cons_append, readUvarintAux, MaxVarintLen64]
      rw [if_pos (show i < 10 by omega)]
      have h256 : m % 256 < 256 := Nat.mod_lt _ (by norm_num)
      rw [if_neg (byte_lor_not_lt (m % 256) h256)]
      have hland : ((m % 256 ||| 128) &&& 127) = m % 128 := by
        rw [byte_lor_land (m % 256) h256, Nat.mod_mod_of_dvd m (by norm_num : (128 : ℕ) ∣ 256)]
      rw [hland]
      rw [lor_shiftLeft_eq (m % 128) hx]
      have hxlt : x + m % 128 * 2 ^ s ≤ x + m * 2 ^ s :=
        Nat.add_le_add_left (Nat.mul_le_mul_right _ (Nat.mod_le m 128)) x
      rw [Nat.mod_eq_of_lt (lt_of_le_of_lt hxlt hbound)]
      have hdiv : m >>> 7 = m / 128 := by
        norm_num [Nat.shiftRight_eq_div_pow]
      have hval : x + m % 128 * 2 ^ s + (m >>> 7) * 2 ^ (s + 7) = x + m * 2 ^ s := by
        rw [hdiv]
        have h2 : (2 : ℕ) ^ (s + 7) = 2 ^ s * 128 := by rw [pow_add]; norm_num
        rw [h2]
        have h3 : m % 128 + 128 * (m / 128) = m := Nat.mod_add_div m 128
        calc x + m % 128 * 2 ^ s + m / 128 * (2 ^ s * 128)
            = x + (m % 128 + 128 * (m / 128)) * 2 ^ s := by ring
          _ = x + m * 2 ^ s := by rw [h3]
      have hmrec : m >>> 7 < 2 ^ (7 * fuel) := by
        rw [hdiv]
        rw [Nat.div_lt_iff_lt_mul (by norm_num : 0 < 128)]
        calc m < 2 ^ (7 * (fuel + 1)) := hm
          _ ≤ 2 ^ (7 * fuel) * 128 := by
            rw [show (128 : ℕ) = 2 ^ 7 by norm_num, ← pow_add]
            exact Nat.pow_le_pow_right (by norm_num) (by omega)
      have hrec := ih (m >>> 7) rest (i + 1) (x + m % 128 * 2 ^ s) (s + 7)
        (by omega)
        (by
          have h1 : m % 128 * 2 ^ s ≤ 127 * 2 ^ s := Nat.mul_le_mul_right _ (by omega)
          have h2 : (2 : ℕ) ^ (s + 7) = 128 * 2 ^ s := by rw [pow_add]; ring
          omega)
        (by rw [hval]; exact hbound)
        (by omega)
        hmrec
        (by
          left
          rw [hdiv]
          omega)
      rw [hval] at hrec
      exact hrec

/-! ## Helper lemmas about the cache operations -/

/-! ## Helper lemmas about expiry and element access -/

lemma isExpired_eq_false_of_le {now : Nat} {e : Entry} (h : now - e.createdAt ≤ e.ttl) :
    isExpired now e = false := by
  unfold isExpired
  split
  · rfl
  · simp only [decide_eq_false_iff_not]
    omega

lemma isExpired_of_zero {now : Nat} {e : Entry} (h : e.ttl = 0) : isExpired now e = false := by
  unfold isExpired
  simp [h]

lemma isExpired_eq_true {now : Nat} {e : Entry} (h0 : e.ttl ≠ 0) (h : now - e.createdAt > e.ttl) :
    isExpired now e = true := by
  unfold isExpired
  simp [h0, h]

lemma find?_key_beq {es : List Entry} {e : Entry} {k : String}
    (h : es.find? (fun e2 => e2.key == k) = some e) : (e.key == k) = true := by
  have := List.find?_some h
  simpa using this

lemma getElement_hit_live {c : Cache} {es : List Entry} {e : Entry} {now : Nat} {k : String}
    (h1 : c.entries = some es) (h2 : es.find? (fun e2 => e2.key == k) = some e)
    (h3 : isExpired now e = false) :
    c.getElement now k = ({ c with entries := some (moveToFront es k) }, [], some e) := by
  simp only [Cache.getElement, h1, h2, h3]
  simp

lemma getElement_hit_expired {c : Cache} {es : List Entry} {e : Entry} {now : Nat} {k : String}
    (h1 : c.entries = some es) (h2 : es.find? (fun e2 => e2.key == k) = some e)
    (h3 : isExpired now e = true) :
    c.getElement now k =
      ({ c with entries := some (es.filter (fun e2 => !(e2.key == k))) },
       [⟨e.key, e.value, .TTLEviction⟩], none) := by
  simp only [Cache.getElement, h1, h2, h3]
  simp

lemma getElement_miss {c : Cache} {now : Nat} {k : String} (h : c.mapLookup k = none) :
    c.getElement now k = (c, [], none) := by
  unfold Cache.mapLookup at h
  match hc : c.entries with
  | none => simp only [Cache.getElement, hc]
  | some es =>
    rw [hc] at h
    simp only at h
    simp only [Cache.getElement, hc, h]

lemma Set_isSome (c : Cache) (now : Nat) (k : String) (v : Bytes) (t : Nat)
    (es : List Entry) (h : c.entries = some es) :
    (c.Set now k v t).isSome = true := by
  simp only [Cache.Set, h]
  split
  · rfl
  · split
    · split
      · rfl
      · rfl
    · rfl

lemma filter_map_update (es : List Entry) (k : String) (v : Bytes) (n : Nat) :
    (es.filter (fun e2 => !(e2.key == k))).map
      (fun e => if e.key = k then
        ({ key := e.key, value := v, cas := n, ttl := e.ttl, createdAt := e.createdAt } : Entry)
       else e) =
    es.filter (fun e2 => !(e2.key == k)) := by
  have h : ∀ x ∈ es.filter (fun e2 => !(e2.key == k)),
      (if x.key = k then
        ({ key := x.key, value := v, cas := n, ttl := x.ttl, createdAt := x.createdAt } : Entry)
       else x) = x := by
    intro x hx
    have hm := (List.mem_filter.mp hx).2
    have hfalse : ¬ (x.key = k) := by simpa using hm
    rw [if_neg hfalse]
  rw [List.map_congr_left h]
  simp

lemma triple_inj {α β γ : Type _} {a a1 : α} {b b1 : β} {x x1 : γ}
    (h : (a, b, x) = (a1, b1, x1)) : a1 = a ∧ b1 = b ∧ x1 = x := by
  simp only [Prod.mk.injEq] at h
  exact ⟨h.1.symm, h.2.1.symm, h.2.2.symm⟩

lemma getElement_spec (c : Cache) (now : Nat) (k : String) :
    (c.mapLookup k = none ∧ c.getElement now k = (c, [], none)) ∨
    (∃ es e, c.entries = some es ∧ es.find? (fun e2 => e2.key == k) = some e ∧
      ((isExpired now e = true ∧
        c.getElement now k =
          ({ c with entries := some (es.filter (fun e2 => !(e2.key == k))) },
           [⟨e.key, e.value, .TTLEviction⟩], none)) ∨
       (isExpired now e = false ∧
        c.getElement now k = ({ c with entries := some (moveToFront es k) }, [], some e)))) := by
  match hc : c.entries with
  | none =>
    have hl : c.mapLookup k = none := by simp [Cache.mapLookup, hc]
    exact Or.inl ⟨hl, getElement_miss hl⟩
  | some es =>
    match hf : es.find? (fun e2 => e2.key == k) with
    | none =>
      have hl : c.mapLookup k = none := by simp [Cache.mapLookup, hc, hf]
      exact Or.inl ⟨hl, getElement_miss hl⟩
    | some e =>
      refine Or.inr ⟨es, e, rfl, hf, ?_⟩
      cases hx : isExpired now e
      · exact Or.inr ⟨rfl, getElement_hit_live hc hf hx⟩
      · exact Or.inl ⟨rfl, getElement_hit_expired hc hf hx⟩

lemma filter_length_lt {es : List Entry} {e : Entry} {k : String}
    (h : es.find? (fun e2 => e2.key == k) = some e) :
    (es.filter (fun e2 => !(e2.key == k))).length < es.length := by
  rw [List.length_filter_lt_length_iff_exists]
  exact ⟨e, List.mem_of_find?_eq_some h, by simp [find?_key_beq h]⟩

lemma size_some {c : Cache} {es : List Entry} (h : c.entries = some es) : c.size = es.length := by
  simp [Cache.size, h]

lemma Set_size_bound {c : Cache} {now : Nat} {k : String} {v : Bytes} {t : Nat}
    {p : Cache × List Evt}
    (hmax : c.maxEntries ≠ 0) (hsz : c.size ≤ c.maxEntries)
    (h : c.Set now k v t = some p) :
    p.1.maxEntries = c.maxEntries ∧ p.1.size ≤ c.maxEntries := by
  match hc : c.entries with
  | none =>
    simp only [Cache.Set, hc] at h
    simp at h
  | some es =>
    have hsz' : es.length ≤ c.maxEntries := by rw [← size_some hc]; exact hsz
    match hf : es.find? (fun e2 => e2.key == k) with
    | some e =>
      simp only [Cache.Set, hc, hf, Cache.nextCasID, Option.some.injEq] at h
      have h1 := congrArg Prod.fst h
      simp only at h1
      rw [← h1]
      refine ⟨rfl, ?_⟩
      have := filter_length_lt hf
      simp only [Cache.size, List.length_cons]
      omega
    | none =>
      simp only [Cache.Set, hc, hf, Cache.nextCasID] at h
      split at h
      · split at h
        · simp only [Option.some.injEq] at h
          have h1 := congrArg Prod.fst h
          simp only at h1
          rw [← h1]
          refine ⟨rfl, ?_⟩
          simp only [Cache.size, List.length_dropLast, List.length_cons]
          omega
        · rename_i hl
          rw [List.getLast?_eq_none_iff] at hl
          simp at hl
      · rename_i hcond
        simp only [Option.some.injEq] at h
        have h1 := congrArg Prod.fst h
        simp only at h1
        rw [← h1]
        refine ⟨rfl, ?_⟩
        simp only [List.length_cons] at hcond
        simp only [Cache.size, List.length_cons]
        omega

lemma Get_fst (c : Cache) (now : Nat) (k : String) :
    (c.Get now k).1 = (c.getElement now k).1 ∧ (c.Gets now k).1 = (c.getElement now k).1 := by
  unfold Cache.Get Cache.Gets
  match c.getElement now k with
  | (a, b, some e) => exact ⟨rfl, rfl⟩
  | (a, b, none) => exact ⟨rfl, rfl⟩

lemma getElement_bound (c : Cache) (now : Nat) (k : String) :
    (c.getElement now k).1.maxEntries = c.maxEntries ∧
    (c.getElement now k).1.casID = c.casID ∧
    (c.getElement now k).1.size ≤ c.size := by
  rcases getElement_spec c now k with ⟨_, hg⟩ | ⟨es, e, hc, hf, ⟨_, hg⟩ | ⟨_, hg⟩⟩ <;> rw [hg]
  · exact ⟨rfl, rfl, Nat.le_refl _⟩
  · refine ⟨rfl, rfl, ?_⟩
    rw [size_some hc]
    simp only [Cache.size]
    exact Nat.le_trans (List.length_filter_le _ _) (Nat.le_refl _)
  · refine ⟨rfl, rfl, ?_⟩
    rw [size_some hc]
    simp only [Cache.size, moveToFront, hf, List.length_cons]
    have := filter_length_lt hf
    omega

lemma updateValueCas_bound (c : Cache) (k : String) (v : Bytes) (n : Nat) :
    (c.updateValueCas k v n).maxEntries = c.maxEntries ∧
    (c.updateValueCas k v n).size = c.size := by
  unfold Cache.updateValueCas
  match hc : c.entries with
  | none => exact ⟨rfl, by simp [Cache.size, hc]⟩
  | some es => exact ⟨rfl, by simp [Cache.size, hc]⟩

lemma Delete_bound (c : Cache) (k : String) :
    (c.Delete k).maxEntries = c.maxEntries ∧ (c.Delete k).size ≤ c.size := by
  match hc : c.entries with
  | none =>
    simp only [Cache.Delete, hc]
    exact ⟨trivial, Nat.le_refl _⟩
  | some es =>
    match hf : es.find? (fun e2 => e2.key == k) with
    | some e =>
      simp only [Cache.Delete, hc, hf]
      refine ⟨trivial, ?_⟩
      rw [size_some hc]
      simp only [Cache.size]
      exact List.length_filter_le _ _
    | none =>
      simp only [Cache.Delete, hc, hf]
      exact ⟨trivial, Nat.le_refl _⟩

lemma Set_casID {c : Cache} {now : Nat} {k : String} {v : Bytes} {t : Nat}
    {p : Cache × List Evt} (h : c.Set now k v t = some p) :
    p.1.casID = (c.casID + 1) % U64 := by
  match hc : c.entries with
  | none =>
    simp only [Cache.Set, hc] at h
    simp at h
  | some es =>
    match hf : es.find? (fun e2 => e2.key == k) with
    | some e =>
      simp only [Cache.Set, hc, hf, Cache.nextCasID, Option.some.injEq] at h
      have h1 := congrArg Prod.fst h
      simp only at h1
      rw [← h1]
    | none =>
      simp only [Cache.Set, hc, hf, Cache.nextCasID] at h
      split at h
      · split at h
        · simp only [Option.some.injEq] at h
          have h1 := congrArg Prod.fst h
          simp only at h1
          rw [← h1]
        · simp only [Option.some.injEq] at h
          have h1 := congrArg Prod.fst h
          simp only at h1
          rw [← h1]
      · simp only [Option.some.injEq] at h
        have h1 := congrArg Prod.fst h
        simp only at h1
        rw [← h1]

lemma Set_entries_some {c : Cache} {now : Nat} {k : String} {v : Bytes} {t : Nat}
    {p : Cache × List Evt} (h : c.Set now k v t = some p) :
    ∃ es1, p.1.entries = some es1 := by
  match hc : c.entries with
  | none =>
    simp only [Cache.Set, hc] at h
    simp at h
  | some es =>
    match hf : es.find? (fun e2 => e2.key == k) with
    | some e =>
      simp only [Cache.Set, hc, hf, Cache.nextCasID, Option.some.injEq] at h
      have h1 := congrArg Prod.fst h
      simp only at h1
      exact ⟨_, by rw [← h1]⟩
    | none =>
      simp only [Cache.Set, hc, hf, Cache.nextCasID] at h
      split at h
      · split at h
        · simp only [Option.some.injEq] at h
          have h1 := congrArg Prod.fst h
          simp only at h1
          exact ⟨_, by rw [← h1]⟩
        · simp only [Option.some.injEq] at h
          have h1 := congrArg Prod.fst h
          simp only at h1
          exact ⟨_, by rw [← h1]⟩
      · simp only [Option.some.injEq] at h
        have h1 := congrArg Prod.fst h
        simp only at h1
        exact ⟨_, by rw [← h1]⟩

lemma step_casID (op : Op) (now : Nat) (c c1 : Cache) (evs : List Evt) (er : Option Err)
    (h : step op now c = some (c1, evs, er)) :
    c1.casID = c.casID ∨ c1.casID = (c.casID + 1) % U64 := by
  cases op with
  | set k v t =>
    match hset : c.Set now k v t with
    | none => rw [step, hset] at h; simp at h
    | some p =>
      rw [step, hset] at h
      simp only [Option.map, Option.some.injEq] at h
      obtain ⟨hA, hB, hC⟩ := triple_inj h
      rw [hA]
      exact Or.inr (Set_casID hset)
  | touch k t =>
    match hl : c.mapLookup k with
    | some e =>
      simp only [step, Cache.Touch, hl] at h
      match hset : c.Set now k e.value t with
      | none => rw [hset] at h; simp at h
      | some p =>
        rw [hset] at h
        simp only [Option.map, Option.some.injEq] at h
        obtain ⟨hA, hB, hC⟩ := triple_inj h
        rw [hA]
        exact Or.inr (Set_casID hset)
    | none =>
      simp only [step, Cache.Touch, hl, Option.some.injEq] at h
      obtain ⟨hA, hB, hC⟩ := triple_inj h
      rw [hA]
      exact Or.inl rfl
  | add k v t =>
    match hl : c.mapLookup k with
    | none =>
      simp only [step, Cache.Add, hl] at h
      match hset : c.Set now k v t with
      | none => rw [hset] at h; simp at h
      | some p =>
        rw [hset] at h
        simp only [Option.map, Option.some.injEq] at h
        obtain ⟨hA, hB, hC⟩ := triple_inj h
        rw [hA]
        exact Or.inr (Set_casID hset)
    | some e =>
      simp only [step, Cache.Add, hl, Option.some.injEq] at h
      obtain ⟨hA, hB, hC⟩ := triple_inj h
      rw [hA]
      exact Or.inl rfl
  | replace k v t =>
    match hl : c.mapLookup k with
    | some e =>
      simp only [step, Cache.Replace, hl] at h
      match hset : c.Set now k v t with
      | none => rw [hset] at h; simp at h
      | some p =>
        rw [hset] at h
        simp only [Option.map, Option.some.injEq] at h
        obtain ⟨hA, hB, hC⟩ := triple_inj h
        rw [hA]
        exact Or.inr (Set_casID hset)
    | none =>
      simp only [step, Cache.Replace, hl, Option.some.injEq] at h
      obtain ⟨hA, hB, hC⟩ := triple_inj h
      rw [hA]
      exact Or.inl rfl
  | cas k v t ver =>
    match hl : c.mapLookup k with
    | some e =>
      by_cases hcas : e.cas = ver
      · simp only [step, Cache.Cas, hl, if_pos hcas] at h
        match hset : c.Set now k v t with
        | none => rw [hset] at h; simp at h
        | some p =>
          rw [hset] at h
          simp only [Option.map, Option.some.injEq] at h
          obtain ⟨hA, hB, hC⟩ := triple_inj h
          rw [hA]
          exact Or.inr (Set_casID hset)
      · simp only [step, Cache.Cas, hl, if_neg hcas, Option.some.injEq] at h
        obtain ⟨hA, hB, hC⟩ := triple_inj h
        rw [hA]
        exact Or.inl rfl
    | none =>
      simp only [step, Cache.Cas, hl, Option.some.injEq] at h
      obtain ⟨hA, hB, hC⟩ := triple_inj h
      rw [hA]
      exact Or.inl rfl
  | get k =>
    have hb := getElement_bound c now k
    have hfst := (Get_fst c now k).1
    match hG : c.Get now k with
    | (a, b, oe) =>
      rw [hG] at hfst
      simp only at hfst
      cases oe with
      | some x =>
        simp only [step, hG, Option.some.injEq] at h
        obtain ⟨hA, hB, hC⟩ := triple_inj h
        rw [hA, hfst]
        exact Or.inl hb.2.1
      | none =>
        simp only [step, hG, Option.some.injEq] at h
        obtain ⟨hA, hB, hC⟩ := triple_inj h
        rw [hA, hfst]
        exact Or.inl hb.2.1
  | gets k =>
    have hb := getElement_bound c now k
    have hfst := (Get_fst c now k).2
    match hG : c.Gets now k with
    | (a, b, oe) =>
      rw [hG] at hfst
      simp only at hfst
      cases oe with
      | some x =>
        simp only [step, hG, Option.some.injEq] at h
        obtain ⟨hA, hB, hC⟩ := triple_inj h
        rw [hA, hfst]
        exact Or.inl hb.2.1
      | none =>
        simp only [step, hG, Option.some.injEq] at h
        obtain ⟨hA, hB, hC⟩ := triple_inj h
        rw [hA, hfst]
        exact Or.inl hb.2.1
  | append k v t =>
    rcases getElement_spec c now k with ⟨hl, hg⟩ | ⟨es, e, hc, hf2, ⟨hx, hg⟩ | ⟨hx, hg⟩⟩
    · simp only [step, Cache.Append, hg, Option.some.injEq] at h
      obtain ⟨hA, hB, hC⟩ := triple_inj h
      rw [hA]
      exact Or.inl rfl
    · simp only [step, Cache.Append, hg, Option.some.injEq] at h
      obtain ⟨hA, hB, hC⟩ := triple_inj h
      rw [hA]
      exact Or.inl rfl
    · simp only [step, Cache.Append, hg] at h
      match hset : Cache.Set { c with entries := some (moveToFront es k) } now k
          (e.value ++ v) t with
      | none => rw [hset] at h; simp at h
      | some p =>
        rw [hset] at h
        simp only [Option.map, Option.some.injEq] at h
        obtain ⟨hA, hB, hC⟩ := triple_inj h
        rw [hA]
        exact Or.inr (Set_casID (c := { c with entries := some (moveToFront es k) }) hset)
  | prepend k v t =>
    rcases getElement_spec c now k with ⟨hl, hg⟩ | ⟨es, e, hc, hf2, ⟨hx, hg⟩ | ⟨hx, hg⟩⟩
    · simp only [step, Cache.Prepend, hg, Option.some.injEq] at h
      obtain ⟨hA, hB, hC⟩ := triple_inj h
      rw [hA]
      exact Or.inl rfl
    · simp only [step, Cache.Prepend, hg, Option.some.injEq] at h
      obtain ⟨hA, hB, hC⟩ := triple_inj h
      rw [hA]
      exact Or.inl rfl
    · simp only [step, Cache.Prepend, hg] at h
      match hset : Cache.Set { c with entries := some (moveToFront es k) } now k
          (v ++ e.value) t with
      | none => rw [hset] at h; simp at h
      | some p =>
        rw [hset] at h
        simp only [Option.map, Option.some.injEq] at h
        obtain ⟨hA, hB, hC⟩ := triple_inj h
        rw [hA]
        exact Or.inr (Set_casID (c := { c with entries := some (moveToFront es k) }) hset)
  | increment k a =>
    rcases getElement_spec c now k with ⟨hl, hg⟩ | ⟨es, e, hc, hf2, ⟨hx, hg⟩ | ⟨hx, hg⟩⟩
    · simp only [step, Cache.Increment, hg, Option.some.injEq] at h
      obtain ⟨hA, hB, hC⟩ := triple_inj h
      rw [hA]
      exact Or.inl rfl
    · simp only [step, Cache.Increment, hg, Option.some.injEq] at h
      obtain ⟨hA, hB, hC⟩ := triple_inj h
      rw [hA]
      exact Or.inl rfl
    · simp only [step, Cache.Increment, hg] at h
      match hdec2 : BytesToUint64 e.value with
      | none =>
        rw [hdec2] at h
        simp only [Option.some.injEq] at h
        obtain ⟨hA, hB, hC⟩ := triple_inj h
        rw [hA]
        exact Or.inl rfl
      | some m =>
        rw [hdec2] at h
        simp only [Cache.nextCasID, Option.some.injEq] at h
        obtain ⟨hA, hB, hC⟩ := triple_inj h
        rw [hA]
        exact Or.inr rfl
  | decrement k a =>
    rcases getElement_spec c now k with ⟨hl, hg⟩ | ⟨es, e, hc, hf2, ⟨hx, hg⟩ | ⟨hx, hg⟩⟩
    · simp only [step, Cache.Decrement, hg, Option.some.injEq] at h
      obtain ⟨hA, hB, hC⟩ := triple_inj h
      rw [hA]
      exact Or.inl rfl
    · simp only [step, Cache.Decrement, hg, Option.some.injEq] at h
      obtain ⟨hA, hB, hC⟩ := triple_inj h
      rw [hA]
      exact Or.inl rfl
    · simp only [step, Cache.Decrement, hg] at h
      match hdec2 : BytesToUint64 e.value with
      | none =>
        rw [hdec2] at h
        simp only [Option.some.injEq] at h
        obtain ⟨hA, hB, hC⟩ := triple_inj h
        rw [hA]
        exact Or.inl rfl
      | some m =>
        rw [hdec2] at h
        simp only [Cache.nextCasID, Option.some.injEq] at h
        obtain ⟨hA, hB, hC⟩ := triple_inj h
        rw [hA]
        exact Or.inr rfl
  | delete k =>
    simp only [step, Option.some.injEq] at h
    obtain ⟨hA, hB, hC⟩ := triple_inj h
    rw [hA]
    match hc : c.entries with
    | none => simp only [Cache.Delete, hc]; exact Or.inl trivial
    | some es =>
      match hf : es.find? (fun e2 => e2.key == k) with
      | some e => simp only [Cache.Delete, hc, hf]; exact Or.inl trivial
      | none => simp only [Cache.Delete, hc, hf]; exact Or.inl trivial
  | flushAll =>
    simp only [step, Option.some.injEq] at h
    obtain ⟨hA, hB, hC⟩ := triple_inj h
    rw [hA]
    exact Or.inl rfl

lemma range'_map_mod {a b : Nat} (len : Nat) (hab : a % U64 = b % U64) :
    (List.range' a len).map (· % U64) = (List.range' b len).map (· % U64) := by
  induction len generalizing a b with
  | zero => simp
  | succ n ih =>
    rw [List.range'_succ, List.range'_succ]
    simp only [List.map_cons]
    have h2 : (a + 1) % U64 = (b + 1) % U64 := by
      rw [Nat.add_mod, hab, ← Nat.add_mod]
    rw [hab, ih h2]

lemma casID_ne {x : Nat} (hx : x < U64) : (x + 1) % U64 ≠ x := by
  intro heq
  by_cases h1 : x + 1 < U64
  · rw [Nat.mod_eq_of_lt h1] at heq
    omega
  · have hx1 : x + 1 = U64 := by omega
    rw [hx1, Nat.mod_self] at heq
    have : U64 = 1 := by omega
    norm_num [U64] at this

lemma runVersions_form : ∀ (ops : List (Nat × Op)) (c : Cache),
    runVersions ops c = (List.range' (c.casID + 1) (runVersions ops c).length).map (· % U64) := by
  intro ops
  induction ops with
  | nil => intro c; rfl
  | cons p rest ih =>
    intro c
    obtain ⟨now, op⟩ := p
    match hstep : step op now c with
    | none => simp [runVersions, hstep]
    | some (c1, evs, er) =>
      by_cases hch : c1.casID = c.casID
      · have hne : ¬ (c1.casID ≠ c.casID) := not_not_intro hch
        simp only [runVersions, hstep, if_neg hne]
        conv_lhs => rw [ih c1]
        rw [hch]
      · simp only [runVersions, hstep, if_pos hch]
        have hcas : c1.casID = (c.casID + 1) % U64 := by
          rcases step_casID op now c c1 evs er hstep with h1 | h1
          · exact absurd h1 hch
          · exact h1
        simp only [List.length_cons]
        rw [List.range'_succ]
        simp only [List.map_cons]
        conv_lhs => rw [ih c1]
        rw [hcas]
        have h2 : ((c.casID + 1) % U64 + 1) % U64 = (c.casID + 1 + 1) % U64 := by
          rw [Nat.add_mod (c.casID + 1) 1, Nat.add_mod ((c.casID + 1) % U64) 1,
            Nat.mod_mod_of_dvd _ (dvd_refl U64)]
        rw [range'_map_mod ((runVersions rest c1).length) h2]

lemma runVersions_replicate_len (k : String) (v : Bytes) (t : Nat) :
    ∀ (m : Nat) (c : Cache) (es : List Entry), c.entries = some es → c.casID < U64 →
    (runVersions (List.replicate m (0, Op.set k v t)) c).length = m := by
  intro m
  induction m with
  | zero => intro c es hc hcas; rfl
  | succ m ih =>
    intro c es hc hcas
    rw [List.replicate_succ]
    obtain ⟨p, hp⟩ := Option.isSome_iff_exists.mp (Set_isSome c 0 k v t es hc)
    have hstep : step (Op.set k v t) 0 c = some (p.1, p.2, none) := by
      rw [step, hp]
      rfl
    have hcas1 : p.1.casID = (c.casID + 1) % U64 := Set_casID hp
    have hne : p.1.casID ≠ c.casID := by
      rw [hcas1]
      exact casID_ne hcas
    simp only [runVersions, hstep, if_pos hne, List.length_cons]
    obtain ⟨es1, hes1⟩ := Set_entries_some hp
    rw [ih p.1 es1 hes1 (by rw [hcas1]; exact Nat.mod_lt _ (by norm_num [U64]))]

/-! ## Claim theorems -/

/-- C9: for every `uint64` value `n`, decoding the buffer produced by
encoding `n` yields exactly `n` with no error:
`BytesToUint64 (Uint64ToBytes n) = (n, nil)`. -/
theorem C9_counter_roundtrip (n : Nat) (h : n < U64) :
    BytesToUint64 (Uint64ToBytes n) = some n := by
  have hsmall : n < 2 ^ (7 * 10) := lt_of_lt_of_le h (by norm_num [U64])
  have := readUvarintAux_putUvarint 10 n
    (List.replicate (MaxVarintLen64 - (putUvarintBytes n).length) 0) 0 0 0
    (by omega) (by norm_num) (by simpa using h) (by omega) hsmall (Or.inr rfl)
  simpa [BytesToUint64, Uint64ToBytes, putUvarintBytes, MaxVarintLen64] using this

/-- Witness for C9 at the boundary values 0, 1, 2^63 and 2^64 - 1. -/
theorem C9_counter_roundtrip_witness :
    BytesToUint64 (Uint64ToBytes 0) = some 0 ∧
    BytesToUint64 (Uint64ToBytes 1) = some 1 ∧
    BytesToUint64 (Uint64ToBytes (2 ^ 63)) = some (2 ^ 63) ∧
    BytesToUint64 (Uint64ToBytes (2 ^ 64 - 1)) = some (2 ^ 64 - 1) :=
  ⟨C9_counter_roundtrip 0 (by norm_num [U64]),
   C9_counter_roundtrip 1 (by norm_num [U64]),
   C9_counter_roundtrip (2 ^ 63) (by norm_num [U64]),
   C9_counter_roundtrip (2 ^ 64 - 1) (by norm_num [U64])⟩

/-- C1 (code bug evidence): `FlushAll` nils out the recency list and the
index instead of resetting them to valid empty structures.  A subsequent
`Set` (or `Add`) therefore panics — the nil-map write / nil-list
`PushFront` — modelled here by `Cache.Set` returning `none`, whereas on a
freshly constructed cache the same `Set` succeeds. -/
theorem C1_flushAll_nils_structures :
    Cache.FlushAll { maxEntries := 2, entries := some [⟨"a", [1], 1, 0, 0⟩], casID := 1 } =
      { maxEntries := 2, entries := none, casID := 1 } ∧
    Cache.Set { maxEntries := 2, entries := none, casID := 1 } 1 "a" [1] 0 = none ∧
    Cache.Add { maxEntries := 2, entries := none, casID := 1 } 1 "b" [2] 0 = none ∧
    Cache.Set (New 2) 1 "a" [1] 0 ≠ none := by decide

/-- C4: `Cas(key, v, ttl, n)` behaves as `Set` exactly when the key is in
the index and its current cas version equals `n`; it fails with
`ErrNotFound` when the key is absent and with `ErrExists` on a version
mismatch, and both failing cases return the cache unchanged with no
eviction notifications. -/
theorem C4_cas_gate (c : Cache) (now : Nat) (k : String) (v : Bytes) (t n : Nat) :
    (∀ e, c.mapLookup k = some e → e.cas = n →
      c.Cas now k v t n = (c.Set now k v t).map (fun p => (p.1, p.2, none))) ∧
    (∀ e, c.mapLookup k = some e → e.cas ≠ n →
      c.Cas now k v t n = some (c, [], some .Exists)) ∧
    (c.mapLookup k = none → c.Cas now k v t n = some (c, [], some .NotFound)) ∧
    ((∃ c1 evs, c.Cas now k v t n = some (c1, evs, none)) ↔
      ∃ e, c.mapLookup k = some e ∧ e.cas = n) := by
  refine ⟨?_, ?_, ?_, ?_⟩
  · intro e he hcas
    simp only [Cache.Cas, he]
    rw [if_pos hcas]
  · intro e he hcas
    simp only [Cache.Cas, he]
    rw [if_neg hcas]
  · intro he
    simp only [Cache.Cas, he]
  · constructor
    · rintro ⟨c1, evs, hsucc⟩
      match he : c.mapLookup k with
      | none => simp only [Cache.Cas, he] at hsucc; simp at hsucc
      | some e =>
        by_cases hcas : e.cas = n
        · exact ⟨e, rfl, hcas⟩
        · simp only [Cache.Cas, he] at hsucc
          rw [if_neg hcas] at hsucc
          simp at hsucc
    · rintro ⟨e, he, hcas⟩
      have hes : ∃ es, c.entries = some es := by
        unfold Cache.mapLookup at he
        match hc : c.entries with
        | none => rw [hc] at he; simp at he
        | some es => exact ⟨es, rfl⟩
      obtain ⟨es, hes⟩ := hes
      obtain ⟨p, hset⟩ := Option.isSome_iff_exists.mp (Set_isSome c now k v t es hes)
      simp only [Cache.Cas, he]
      rw [if_pos hcas, hset]
      exact ⟨p.1, p.2, rfl⟩

/-- Witness for C4: a matching Cas behaves as Set, a mismatched one fails
with ErrExists, an absent key fails with ErrNotFound, both without mutation. -/
theorem C4_cas_gate_witness :
    (Cache.Cas { maxEntries := 0, entries := some [⟨"k", [7], 3, 0, 0⟩], casID := 3 }
        1 "k" [9] 0 3 =
      (Cache.Set { maxEntries := 0, entries := some [⟨"k", [7], 3, 0, 0⟩], casID := 3 }
        1 "k" [9] 0).map (fun p => (p.1, p.2, none))) ∧
    (Cache.Cas { maxEntries := 0, entries := some [⟨"k", [7], 3, 0, 0⟩], casID := 3 }
        1 "k" [9] 0 9 =
      some ({ maxEntries := 0, entries := some [⟨"k", [7], 3, 0, 0⟩], casID := 3 },
        [], some .Exists)) ∧
    (Cache.Cas { maxEntries := 0, entries := some [⟨"k", [7], 3, 0, 0⟩], casID := 3 }
        1 "nope" [9] 0 3 =
      some ({ maxEntries := 0, entries := some [⟨"k", [7], 3, 0, 0⟩], casID := 3 },
        [], some .NotFound)) :=
  ⟨(C4_cas_gate _ 1 "k" [9] 0 3).1 ⟨"k", [7], 3, 0, 0⟩ (by decide) (by decide),
   (C4_cas_gate _ 1 "k" [9] 0 9).2.1 ⟨"k", [7], 3, 0, 0⟩ (by decide) (by decide),
   (C4_cas_gate _ 1 "nope" [9] 0 3).2.2.1 (by decide)⟩

/-- C5 counterexample: an entry written at time 0 with ttl 5 is still
returned by `Get` at time exactly 5 (elapsed = ttl), because `isExpired`
uses a strict comparison; the claim demands `NotFound` at any time `≥ t`. -/
theorem C5_lazy_ttl_counterexample :
    (New 0).Set 0 "k" [7] 5 =
      some ({ maxEntries := 0, entries := some [⟨"k", [7], 1, 5, 0⟩], casID := 1 }, []) ∧
    (Cache.Get { maxEntries := 0, entries := some [⟨"k", [7], 1, 5, 0⟩], casID := 1 } 5 "k").2.2 =
      some [7] := by decide

/-- C5 (amended): an entry with `ttl = t ≠ 0` is returned by `Get`/`Gets`
at any elapsed time `≤ t` since its last write and reports `NotFound` for
elapsed time `> t`; an entry with `ttl = 0` never expires; an access that
discovers expiration removes the entry, fires the eviction handler with
`TTLEviction`, and fails with `NotFound`. -/
theorem C5_lazy_ttl (c : Cache) (es : List Entry) (e : Entry) (now : Nat) (k : String)
    (h1 : c.entries = some es) (h2 : es.find? (fun e2 => e2.key == k) = some e) :
    (e.ttl ≠ 0 → now - e.createdAt ≤ e.ttl →
      c.Get now k = ({ c with entries := some (moveToFront es k) }, [], some e.value) ∧
      c.Gets now k = ({ c with entries := some (moveToFront es k) }, [], some (e.value, e.cas))) ∧
    (e.ttl ≠ 0 → now - e.createdAt > e.ttl →
      c.Get now k = ({ c with entries := some (es.filter (fun e2 => !(e2.key == k))) },
        [⟨e.key, e.value, .TTLEviction⟩], none) ∧
      c.Gets now k = ({ c with entries := some (es.filter (fun e2 => !(e2.key == k))) },
        [⟨e.key, e.value, .TTLEviction⟩], none)) ∧
    (e.ttl = 0 →
      c.Get now k = ({ c with entries := some (moveToFront es k) }, [], some e.value)) := by
  refine ⟨fun h3 h4 => ?_, fun h3 h4 => ?_, fun h3 => ?_⟩
  · have hx := getElement_hit_live h1 h2 (isExpired_eq_false_of_le h4)
    unfold Cache.Get Cache.Gets
    rw [hx]
    exact ⟨rfl, rfl⟩
  · have hx := getElement_hit_expired h1 h2 (isExpired_eq_true h3 h4)
    unfold Cache.Get Cache.Gets
    rw [hx]
    exact ⟨rfl, rfl⟩
  · have hx := getElement_hit_live h1 h2 (show isExpired now e = false from isExpired_of_zero h3)
    unfold Cache.Get
    rw [hx]

/-- Witness for C5 at a concrete entry: live at elapsed 3 ≤ 5, removed
with a TTLEviction notification at elapsed 6 > 5. -/
theorem C5_lazy_ttl_witness :
    (Cache.Get { maxEntries := 0, entries := some [⟨"k", [7], 1, 5, 0⟩], casID := 1 } 3 "k" =
      ({ maxEntries := 0, entries := some [⟨"k", [7], 1, 5, 0⟩], casID := 1 }, [], some [7])) ∧
    (Cache.Get { maxEntries := 0, entries := some [⟨"k", [7], 1, 5, 0⟩], casID := 1 } 6 "k" =
      ({ maxEntries := 0, entries := some [], casID := 1 },
       [⟨"k", [7], .TTLEviction⟩], none)) := by
  constructor
  · have := (C5_lazy_ttl { maxEntries := 0, entries := some [⟨"k", [7], 1, 5, 0⟩], casID := 1 }
      [⟨"k", [7], 1, 5, 0⟩] ⟨"k", [7], 1, 5, 0⟩ 3 "k" rfl (by decide)).1
      (by decide) (by decide)
    simpa [moveToFront] using this.1
  · have := (C5_lazy_ttl { maxEntries := 0, entries := some [⟨"k", [7], 1, 5, 0⟩], casID := 1 }
      [⟨"k", [7], 1, 5, 0⟩] ⟨"k", [7], 1, 5, 0⟩ 6 "k" rfl (by decide)).2.1
      (by decide) (by decide)
    simpa using this.1

/-- C6 counterexample: `Replace` on a key whose entry is expired at call
time (written at 0 with ttl 5, called at 10) succeeds and overwrites,
while the claim demands it fail with `NotFound`. -/
theorem C6_replace_counterexample :
    isExpired 10 (⟨"k", [7], 1, 5, 0⟩ : Entry) = true ∧
    Cache.Replace { maxEntries := 0, entries := some [⟨"k", [7], 1, 5, 0⟩], casID := 1 }
        10 "k" [9] 0 =
      some ({ maxEntries := 0, entries := some [⟨"k", [9], 2, 0, 10⟩], casID := 2 }, [], none) := by
  decide

/-- C6 (amended): `Replace(key, value, ttl)` behaves as `Set` exactly when
the key is present in the index — whether or not its entry is expired —
and fails with `NotFound`, performing no mutation, only when the key is
absent. -/
theorem C6_replace (c : Cache) (now : Nat) (k : String) (v : Bytes) (t : Nat) :
    (∀ e, c.mapLookup k = some e →
      c.Replace now k v t = (c.Set now k v t).map (fun p => (p.1, p.2, none))) ∧
    (c.mapLookup k = none → c.Replace now k v t = some (c, [], some .NotFound)) := by
  constructor
  · intro e he
    simp only [Cache.Replace, he]
  · intro he
    simp only [Cache.Replace, he]

/-- Witness for C6: Replace acts as Set on a present (here: expired) key
and fails with NotFound, unchanged, on an absent key. -/
theorem C6_replace_witness :
    Cache.Replace { maxEntries := 0, entries := some [⟨"k", [7], 1, 5, 0⟩], casID := 1 }
        10 "k" [9] 0 =
      (Cache.Set { maxEntries := 0, entries := some [⟨"k", [7], 1, 5, 0⟩], casID := 1 }
        10 "k" [9] 0).map (fun p => (p.1, p.2, none)) ∧
    Cache.Replace { maxEntries := 0, entries := some [⟨"k", [7], 1, 5, 0⟩], casID := 1 }
        10 "absent" [9] 0 =
      some ({ maxEntries := 0, entries := some [⟨"k", [7], 1, 5, 0⟩], casID := 1 },
        [], some .NotFound) :=
  ⟨(C6_replace _ 10 "k" [9] 0).1 ⟨"k", [7], 1, 5, 0⟩ (by decide),
   (C6_replace _ 10 "absent" [9] 0).2 (by decide)⟩

/-- C7 counterexample: a successful `Increment` at time 9 on an entry
created at time 3 leaves `createdAt = 3` — it does not refresh the
timestamp to the moment of the call as the claim states. -/
theorem C7_incr_decr_counterexample :
    (Cache.Increment
        { maxEntries := 0, entries := some [⟨"k", Uint64ToBytes 5, 1, 0, 3⟩], casID := 1 }
        9 "k" 2).2.2 = none ∧
    (Cache.Increment
        { maxEntries := 0, entries := some [⟨"k", Uint64ToBytes 5, 1, 0, 3⟩], casID := 1 }
        9 "k" 2).1.entries = some [⟨"k", Uint64ToBytes 7, 2, 0, 3⟩] ∧
    ¬ ((Cache.Increment
        { maxEntries := 0, entries := some [⟨"k", Uint64ToBytes 5, 1, 0, 3⟩], casID := 1 }
        9 "k" 2).1.entries = some [⟨"k", Uint64ToBytes 7, 2, 0, 9⟩]) := by
  refine ⟨?_, ?_, ?_⟩ <;> decide

/-- C7 (amended): every successful `Increment`/`Decrement` stores the
re-encoded (wrapping) counter value, assigns a fresh casVersion and moves
the entry to the front of the recency list, but leaves `ttl` and
`createdAt` unchanged — unlike Touch, it is not a Set-equivalent mutation
and does not refresh the timestamp. -/
theorem C7_incr_decr (c : Cache) (es : List Entry) (e : Entry) (now : Nat) (k : String)
    (amt n : Nat)
    (h1 : c.entries = some es) (h2 : es.find? (fun e2 => e2.key == k) = some e)
    (h3 : isExpired now e = false) (h4 : BytesToUint64 e.value = some n) :
    c.Increment now k amt =
      (Cache.updateValueCas
        { maxEntries := c.maxEntries, entries := some (moveToFront es k),
          casID := (c.casID + 1) % U64 }
        k (Uint64ToBytes ((n + amt) % U64)) ((c.casID + 1) % U64), [], none) ∧
    (c.Increment now k amt).1.entries =
      some (⟨e.key, Uint64ToBytes ((n + amt) % U64), (c.casID + 1) % U64, e.ttl, e.createdAt⟩ ::
        es.filter (fun e2 => !(e2.key == k))) ∧
    c.Decrement now k amt =
      (Cache.updateValueCas
        { maxEntries := c.maxEntries, entries := some (moveToFront es k),
          casID := (c.casID + 1) % U64 }
        k (Uint64ToBytes ((n + (U64 - amt % U64)) % U64)) ((c.casID + 1) % U64), [], none) ∧
    (c.Decrement now k amt).1.entries =
      some (⟨e.key, Uint64ToBytes ((n + (U64 - amt % U64)) % U64), (c.casID + 1) % U64,
        e.ttl, e.createdAt⟩ :: es.filter (fun e2 => !(e2.key == k))) := by
  have hget := getElement_hit_live h1 h2 h3
  have hkey : (e.key == k) = true := find?_key_beq h2
  have hmv : moveToFront es k = e :: es.filter (fun e2 => !(e2.key == k)) := by
    unfold moveToFront
    rw [h2]
  have hinc : c.Increment now k amt =
      (Cache.updateValueCas
        { maxEntries := c.maxEntries, entries := some (moveToFront es k),
          casID := (c.casID + 1) % U64 }
        k (Uint64ToBytes ((n + amt) % U64)) ((c.casID + 1) % U64), [], none) := by
    unfold Cache.Increment
    rw [hget]
    simp only [h4, Cache.nextCasID]
  have hdec : c.Decrement now k amt =
      (Cache.updateValueCas
        { maxEntries := c.maxEntries, entries := some (moveToFront es k),
          casID := (c.casID + 1) % U64 }
        k (Uint64ToBytes ((n + (U64 - amt % U64)) % U64)) ((c.casID + 1) % U64), [], none) := by
    unfold Cache.Decrement
    rw [hget]
    simp only [h4, Cache.nextCasID]
  have hk : e.key = k := by simpa using hkey
  refine ⟨hinc, ?_, hdec, ?_⟩
  · rw [hinc]
    simp [Cache.updateValueCas, hmv, hk, filter_map_update]
  · rw [hdec]
    simp [Cache.updateValueCas, hmv, hk, filter_map_update]

/-- Witness for C7: incrementing a counter of 5 by 2 at time 6 stores
encode(7) with cas 2, keeping ttl 8 and createdAt 0; decrementing stores
encode(3). -/
theorem C7_incr_decr_witness :
    (Cache.Increment
        { maxEntries := 0, entries := some [⟨"k", Uint64ToBytes 5, 1, 8, 0⟩], casID := 1 }
        6 "k" 2).1.entries = some [⟨"k", Uint64ToBytes 7, 2, 8, 0⟩] ∧
    (Cache.Decrement
        { maxEntries := 0, entries := some [⟨"k", Uint64ToBytes 5, 1, 8, 0⟩], casID := 1 }
        6 "k" 2).1.entries = some [⟨"k", Uint64ToBytes 3, 2, 8, 0⟩] := by
  have h := C7_incr_decr
    { maxEntries := 0, entries := some [⟨"k", Uint64ToBytes 5, 1, 8, 0⟩], casID := 1 }
    [⟨"k", Uint64ToBytes 5, 1, 8, 0⟩] ⟨"k", Uint64ToBytes 5, 1, 8, 0⟩ 6 "k" 2 5
    rfl (by decide) (by decide) (by decide)
  exact ⟨h.2.1, h.2.2.2⟩

/-- C10: `Add`, `Touch` and `Cas` consult only index membership, never
expiry.  On a key whose entry is expired but not yet lazily removed, `Add`
fails with `ErrExists` without inserting, `Touch` succeeds and revives the
entry with its old value and fresh ttl/createdAt/casVersion, and `Cas`
with the expired entry's current version succeeds as a Set. -/
theorem C10_membership_gate (c : Cache) (es : List Entry) (e : Entry) (now : Nat) (k : String)
    (v : Bytes) (t : Nat)
    (h1 : c.entries = some es) (h2 : es.find? (fun e2 => e2.key == k) = some e)
    (h3 : isExpired now e = true) :
    c.Add now k v t = some (c, [], some .Exists) ∧
    c.Touch now k t =
      some ({ maxEntries := c.maxEntries,
              entries := some (⟨e.key, e.value, (c.casID + 1) % U64, t, now⟩ ::
                es.filter (fun e2 => !(e2.key == k))),
              casID := (c.casID + 1) % U64 }, [], none) ∧
    c.Cas now k v t e.cas =
      some ({ maxEntries := c.maxEntries,
              entries := some (⟨e.key, v, (c.casID + 1) % U64, t, now⟩ ::
                es.filter (fun e2 => !(e2.key == k))),
              casID := (c.casID + 1) % U64 }, [], none) := by
  have hlook : c.mapLookup k = some e := by
    unfold Cache.mapLookup
    rw [h1]
    exact h2
  refine ⟨?_, ?_, ?_⟩
  · simp only [Cache.Add, hlook]
  · simp only [Cache.Touch, hlook, Cache.Set, h1, h2]
    simp [Cache.nextCasID]
  · simp only [Cache.Cas, hlook, if_true]
    simp only [Cache.Set, h1, h2]
    simp [Cache.nextCasID]

/-- Witness for C10 on an entry expired at call time (ttl 5, written at 0,
accessed at 10): Add fails with ErrExists, Touch revives with old value
and fresh ttl/createdAt/cas, Cas at the current version succeeds. -/
theorem C10_membership_gate_witness :
    (isExpired 10 (⟨"k", [7], 3, 5, 0⟩ : Entry) = true) ∧
    (Cache.Add { maxEntries := 0, entries := some [⟨"k", [7], 3, 5, 0⟩], casID := 3 }
        10 "k" [9] 0 =
      some ({ maxEntries := 0, entries := some [⟨"k", [7], 3, 5, 0⟩], casID := 3 },
        [], some .Exists)) ∧
    (Cache.Touch { maxEntries := 0, entries := some [⟨"k", [7], 3, 5, 0⟩], casID := 3 }
        10 "k" 2 =
      some ({ maxEntries := 0, entries := some [⟨"k", [7], 4, 2, 10⟩], casID := 4 },
        [], none)) ∧
    (Cache.Cas { maxEntries := 0, entries := some [⟨"k", [7], 3, 5, 0⟩], casID := 3 }
        10 "k" [9] 2 3 =
      some ({ maxEntries := 0, entries := some [⟨"k", [9], 4, 2, 10⟩], casID := 4 },
        [], none)) := by
  have h := C10_membership_gate
    { maxEntries := 0, entries := some [⟨"k", [7], 3, 5, 0⟩], casID := 3 }
    [⟨"k", [7], 3, 5, 0⟩] ⟨"k", [7], 3, 5, 0⟩ 10 "k" [9] 2 rfl (by decide) (by decide)
  refine ⟨by decide, h.1, ?_, ?_⟩
  · have := h.2.1
    simpa using this
  · have := h.2.2
    simpa using this

/-- C2 counterexample: the cas counter is a wrapping `uint64`, so over a
run of 2^64 successful Sets the assigned versions are not strictly
increasing: the 2^64-th mutation is assigned version 0, right after
version 2^64 - 1. -/
theorem C2_cas_monotonic_counterexample :
    ¬ List.Pairwise (· < ·)
      (runVersions (List.replicate U64 (0, Op.set "k" [] 0)) (New 0)) := by
  intro hp
  have hlen : (runVersions (List.replicate U64 (0, Op.set "k" [] 0)) (New 0)).length = U64 :=
    runVersions_replicate_len "k" [] 0 U64 (New 0) [] rfl (by norm_num [New, U64])
  have hform := runVersions_form (List.replicate U64 (0, Op.set "k" [] 0)) (New 0)
  rw [hlen] at hform
  rw [hform] at hp
  rw [List.pairwise_iff_getElem] at hp
  have hU : (0 : Nat) < U64 := by norm_num [U64]
  have hlen2 : ((List.range' ((New 0).casID + 1) U64).map (· % U64)).length = U64 := by
    simp
  have hlt : U64 - 1 < ((List.range' ((New 0).casID + 1) U64).map (· % U64)).length := by
    rw [hlen2]; omega
  have h0 : 0 < ((List.range' ((New 0).casID + 1) U64).map (· % U64)).length := by
    rw [hlen2]; omega
  have hUbig : (1 : Nat) < U64 := by norm_num [U64]
  have hcmp := hp 0 (U64 - 1) h0 hlt (by omega)
  have hg0 : ((List.range' ((New 0).casID + 1) U64).map (· % U64))[0] = 1 := by
    rw [List.getElem_map]
    simp only [List.getElem_range'_1]
    show ((New 0).casID + 1 + 0) % U64 = 1
    norm_num [New, U64]
  have hg1 : ((List.range' ((New 0).casID + 1) U64).map (· % U64))[U64 - 1] = 0 := by
    rw [List.getElem_map]
    simp only [List.getElem_range'_1]
    show ((New 0).casID + 1 + (U64 - 1)) % U64 = 0
    have : (New 0).casID + 1 + (U64 - 1) = U64 := by
      show 0 + 1 + (U64 - 1) = U64
      omega
    rw [this, Nat.mod_self]
  rw [hg0, hg1] at hcmp
  omega

/-- C2 (amended): for every run from a fresh Engine in which fewer than
2^64 successful mutations occur, the cas versions assigned, in order, are
exactly 1, 2, 3, ...: each successful mutating call, on any key, assigns
casCounter+1 and updates the counter, so the versions are strictly
increasing and globally unique across all keys. -/
theorem C2_cas_monotonic (ops : List (Nat × Op)) (m : Nat)
    (h : (runVersions ops (New m)).length < U64) :
    runVersions ops (New m) = List.range' 1 (runVersions ops (New m)).length ∧
    List.Pairwise (· < ·) (runVersions ops (New m)) ∧
    (runVersions ops (New m)).Nodup := by
  have hform : runVersions ops (New m) =
      (List.range' 1 (runVersions ops (New m)).length).map (· % U64) :=
    runVersions_form ops (New m)
  have hid : (List.range' 1 (runVersions ops (New m)).length).map (· % U64) =
      List.range' 1 (runVersions ops (New m)).length := by
    have h2 : ∀ x ∈ List.range' 1 (runVersions ops (New m)).length, x % U64 = x := by
      intro x hx
      rw [List.mem_range'_1] at hx
      exact Nat.mod_eq_of_lt (by omega)
    calc (List.range' 1 (runVersions ops (New m)).length).map (· % U64)
        = (List.range' 1 (runVersions ops (New m)).length).map id :=
          List.map_congr_left h2
      _ = List.range' 1 (runVersions ops (New m)).length := List.map_id _
  have hvs : runVersions ops (New m) = List.range' 1 (runVersions ops (New m)).length := by
    conv_lhs => rw [hform]
    rw [hid]
  refine ⟨hvs, ?_, ?_⟩
  · rw [hvs]
    exact List.pairwise_lt_range' 1 (runVersions ops (New m)).length
  · rw [hvs]
    exact List.nodup_range' 1 (runVersions ops (New m)).length

/-- Witness for C2: a single Set from a fresh Engine assigns exactly
version 1, a strictly increasing and duplicate-free version list. -/
theorem C2_cas_monotonic_witness :
    runVersions [(0, Op.set "k" [] 0)] (New 0) =
      List.range' 1 (runVersions [(0, Op.set "k" [] 0)] (New 0)).length ∧
    List.Pairwise (· < ·) (runVersions [(0, Op.set "k" [] 0)] (New 0)) ∧
    (runVersions [(0, Op.set "k" [] 0)] (New 0)).Nodup :=
  C2_cas_monotonic [(0, Op.set "k" [] 0)] 0 (by decide)

/-- C3: if `maxEntries > 0` and the cache currently holds at most
`maxEntries` entries, then after any operation completes it still holds
at most `maxEntries` entries; and whenever a Set of a new key finds the
cache exactly full, the back-most entry is evicted: the eviction handler
is fired with that entry's key, value and `LRUEviction`, and the back
node is removed before the call returns. -/
theorem C3_capacity (op : Op) (now : Nat) (c c1 : Cache) (evs : List Evt) (er : Option Err)
    (hmax : c.maxEntries ≠ 0) (hsz : c.size ≤ c.maxEntries)
    (h : step op now c = some (c1, evs, er)) :
    c1.maxEntries = c.maxEntries ∧ c1.size ≤ c.maxEntries ∧
    (∀ k v t es back, c.entries = some es → es.find? (fun e2 => e2.key == k) = none →
      es.length = c.maxEntries → es.getLast? = some back →
      c.Set now k v t =
        some ({ maxEntries := c.maxEntries,
                entries := some ((⟨k, v, (c.casID + 1) % U64, t, now⟩ :: es).dropLast),
                casID := (c.casID + 1) % U64 },
          [⟨back.key, back.value, .LRUEviction⟩])) := by
  have hevict : ∀ k v t es back, c.entries = some es →
      es.find? (fun e2 => e2.key == k) = none →
      es.length = c.maxEntries → es.getLast? = some back →
      c.Set now k v t =
        some ({ maxEntries := c.maxEntries,
                entries := some ((⟨k, v, (c.casID + 1) % U64, t, now⟩ :: es).dropLast),
                casID := (c.casID + 1) % U64 },
          [⟨back.key, back.value, .LRUEviction⟩]) := by
    intro k v t es back hc hf hlen hback
    simp only [Cache.Set, hc, hf, Cache.nextCasID]
    have hcond : c.maxEntries ≠ 0 ∧
        ((⟨k, v, (c.casID + 1) % U64, t, now⟩ : Entry) :: es).length > c.maxEntries := by
      refine ⟨hmax, ?_⟩
      simp only [List.length_cons]
      omega
    rw [if_pos hcond]
    have hlast : ((⟨k, v, (c.casID + 1) % U64, t, now⟩ : Entry) :: es).getLast? =
        some back := by
      match es, hback with
      | e2 :: es2, hback => rw [List.getLast?_cons_cons]; exact hback
      | [], hback => simp at hback
    rw [hlast]
  have main : c1.maxEntries = c.maxEntries ∧ c1.size ≤ c.maxEntries := by
    cases op with
    | set k v t =>
      match hset : c.Set now k v t with
      | none => rw [step, hset] at h; simp at h
      | some p =>
        rw [step, hset] at h
        simp only [Option.map, Option.some.injEq] at h
        obtain ⟨hA, hB, hC⟩ := triple_inj h
        rw [hA]
        exact Set_size_bound hmax hsz hset
    | touch k t =>
      match hl : c.mapLookup k with
      | some e =>
        simp only [step, Cache.Touch, hl] at h
        match hset : c.Set now k e.value t with
        | none => rw [hset] at h; simp at h
        | some p =>
          rw [hset] at h
          simp only [Option.map, Option.some.injEq] at h
          obtain ⟨hA, hB, hC⟩ := triple_inj h
          rw [hA]
          exact Set_size_bound hmax hsz hset
      | none =>
        simp only [step, Cache.Touch, hl, Option.some.injEq] at h
        obtain ⟨hA, hB, hC⟩ := triple_inj h
        rw [hA]
        exact ⟨rfl, hsz⟩
    | add k v t =>
      match hl : c.mapLookup k with
      | none =>
        simp only [step, Cache.Add, hl] at h
        match hset : c.Set now k v t with
        | none => rw [hset] at h; simp at h
        | some p =>
          rw [hset] at h
          simp only [Option.map, Option.some.injEq] at h
          obtain ⟨hA, hB, hC⟩ := triple_inj h
          rw [hA]
          exact Set_size_bound hmax hsz hset
      | some e =>
        simp only [step, Cache.Add, hl, Option.some.injEq] at h
        obtain ⟨hA, hB, hC⟩ := triple_inj h
        rw [hA]
        exact ⟨rfl, hsz⟩
    | replace k v t =>
      match hl : c.mapLookup k with
      | some e =>
        simp only [step, Cache.Replace, hl] at h
        match hset : c.Set now k v t with
        | none => rw [hset] at h; simp at h
        | some p =>
          rw [hset] at h
          simp only [Option.map, Option.some.injEq] at h
          obtain ⟨hA, hB, hC⟩ := triple_inj h
          rw [hA]
          exact Set_size_bound hmax hsz hset
      | none =>
        simp only [step, Cache.Replace, hl, Option.some.injEq] at h
        obtain ⟨hA, hB, hC⟩ := triple_inj h
        rw [hA]
        exact ⟨rfl, hsz⟩
    | cas k v t ver =>
      match hl : c.mapLookup k with
      | some e =>
        by_cases hcas : e.cas = ver
        · simp only [step, Cache.Cas, hl, if_pos hcas] at h
          match hset : c.Set now k v t with
          | none => rw [hset] at h; simp at h
          | some p =>
            rw [hset] at h
            simp only [Option.map, Option.some.injEq] at h
            obtain ⟨hA, hB, hC⟩ := triple_inj h
            rw [hA]
            exact Set_size_bound hmax hsz hset
        · simp only [step, Cache.Cas, hl, if_neg hcas, Option.some.injEq] at h
          obtain ⟨hA, hB, hC⟩ := triple_inj h
          rw [hA]
          exact ⟨rfl, hsz⟩
      | none =>
        simp only [step, Cache.Cas, hl, Option.some.injEq] at h
        obtain ⟨hA, hB, hC⟩ := triple_inj h
        rw [hA]
        exact ⟨rfl, hsz⟩
    | get k =>
      have hb := getElement_bound c now k
      have hfst := (Get_fst c now k).1
      match hG : c.Get now k with
      | (a, b, oe) =>
        rw [hG] at hfst
        simp only at hfst
        cases oe with
        | some x =>
          simp only [step, hG, Option.some.injEq] at h
          obtain ⟨hA, hB, hC⟩ := triple_inj h
          rw [hA, hfst]
          exact ⟨hb.1, Nat.le_trans hb.2.2 hsz⟩
        | none =>
          simp only [step, hG, Option.some.injEq] at h
          obtain ⟨hA, hB, hC⟩ := triple_inj h
          rw [hA, hfst]
          exact ⟨hb.1, Nat.le_trans hb.2.2 hsz⟩
    | gets k =>
      have hb := getElement_bound c now k
      have hfst := (Get_fst c now k).2
      match hG : c.Gets now k with
      | (a, b, oe) =>
        rw [hG] at hfst
        simp only at hfst
        cases oe with
        | some x =>
          simp only [step, hG, Option.some.injEq] at h
          obtain ⟨hA, hB, hC⟩ := triple_inj h
          rw [hA, hfst]
          exact ⟨hb.1, Nat.le_trans hb.2.2 hsz⟩
        | none =>
          simp only [step, hG, Option.some.injEq] at h
          obtain ⟨hA, hB, hC⟩ := triple_inj h
          rw [hA, hfst]
          exact ⟨hb.1, Nat.le_trans hb.2.2 hsz⟩
    | append k v t =>
      rcases getElement_spec c now k with ⟨hl, hg⟩ | ⟨es, e, hc, hf2, ⟨hx, hg⟩ | ⟨hx, hg⟩⟩
      · simp only [step, Cache.Append, hg, Option.some.injEq] at h
        obtain ⟨hA, hB, hC⟩ := triple_inj h
        rw [hA]
        exact ⟨rfl, hsz⟩
      · simp only [step, Cache.Append, hg, Option.some.injEq] at h
        obtain ⟨hA, hB, hC⟩ := triple_inj h
        rw [hA]
        refine ⟨rfl, ?_⟩
        rw [size_some hc] at hsz
        simp only [Cache.size]
        exact Nat.le_trans (List.length_filter_le _ _) hsz
      · simp only [step, Cache.Append, hg] at h
        match hset : Cache.Set { c with entries := some (moveToFront es k) } now k
            (e.value ++ v) t with
        | none => rw [hset] at h; simp at h
        | some p =>
          rw [hset] at h
          simp only [Option.map, Option.some.injEq] at h
          obtain ⟨hA, hB, hC⟩ := triple_inj h
          rw [hA]
          have hmsz : ({ c with entries := some (moveToFront es k) } : Cache).size ≤
              ({ c with entries := some (moveToFront es k) } : Cache).maxEntries := by
            simp only [Cache.size, moveToFront, hf2, List.length_cons]
            rw [size_some hc] at hsz
            have := filter_length_lt hf2
            omega
          exact Set_size_bound (c := { c with entries := some (moveToFront es k) })
            hmax hmsz hset
    | prepend k v t =>
      rcases getElement_spec c now k with ⟨hl, hg⟩ | ⟨es, e, hc, hf2, ⟨hx, hg⟩ | ⟨hx, hg⟩⟩
      · simp only [step, Cache.Prepend, hg, Option.some.injEq] at h
        obtain ⟨hA, hB, hC⟩ := triple_inj h
        rw [hA]
        exact ⟨rfl, hsz⟩
      · simp only [step, Cache.Prepend, hg, Option.some.injEq] at h
        obtain ⟨hA, hB, hC⟩ := triple_inj h
        rw [hA]
        refine ⟨rfl, ?_⟩
        rw [size_some hc] at hsz
        simp only [Cache.size]
        exact Nat.le_trans (List.length_filter_le _ _) hsz
      · simp only [step, Cache.Prepend, hg] at h
        match hset : Cache.Set { c with entries := some (moveToFront es k) } now k
            (v ++ e.value) t with
        | none => rw [hset] at h; simp at h
        | some p =>
          rw [hset] at h
          simp only [Option.map, Option.some.injEq] at h
          obtain ⟨hA, hB, hC⟩ := triple_inj h
          rw [hA]
          have hmsz : ({ c with entries := some (moveToFront es k) } : Cache).size ≤
              ({ c with entries := some (moveToFront es k) } : Cache).maxEntries := by
            simp only [Cache.size, moveToFront, hf2, List.length_cons]
            rw [size_some hc] at hsz
            have := filter_length_lt hf2
            omega
          exact Set_size_bound (c := { c with entries := some (moveToFront es k) })
            hmax hmsz hset
    | increment k a =>
      rcases getElement_spec c now k with ⟨hl, hg⟩ | ⟨es, e, hc, hf2, ⟨hx, hg⟩ | ⟨hx, hg⟩⟩
      · simp only [step, Cache.Increment, hg, Option.some.injEq] at h
        obtain ⟨hA, hB, hC⟩ := triple_inj h
        rw [hA]
        exact ⟨rfl, hsz⟩
      · simp only [step, Cache.Increment, hg, Option.some.injEq] at h
        obtain ⟨hA, hB, hC⟩ := triple_inj h
        rw [hA]
        refine ⟨rfl, ?_⟩
        rw [size_some hc] at hsz
        simp only [Cache.size]
        exact Nat.le_trans (List.length_filter_le _ _) hsz
      · simp only [step, Cache.Increment, hg] at h
        match hdec2 : BytesToUint64 e.value with
        | none =>
          rw [hdec2] at h
          simp only [Option.some.injEq] at h
          obtain ⟨hA, hB, hC⟩ := triple_inj h
          rw [hA]
          refine ⟨rfl, ?_⟩
          simp only [Cache.size, moveToFront, hf2, List.length_cons]
          rw [size_some hc] at hsz
          have := filter_length_lt hf2
          omega
        | some m =>
          rw [hdec2] at h
          simp only [Cache.nextCasID, Option.some.injEq] at h
          obtain ⟨hA, hB, hC⟩ := triple_inj h
          rw [hA]
          obtain ⟨hm2, hs2⟩ := updateValueCas_bound
            { maxEntries := c.maxEntries, entries := some (moveToFront es k),
              casID := (c.casID + 1) % U64 } k
            (Uint64ToBytes ((m + a) % U64)) ((c.casID + 1) % U64)
          refine ⟨hm2, ?_⟩
          rw [hs2]
          simp only [Cache.size, moveToFront, hf2, List.length_cons]
          rw [size_some hc] at hsz
          have := filter_length_lt hf2
          omega
    | decrement k a =>
      rcases getElement_spec c now k with ⟨hl, hg⟩ | ⟨es, e, hc, hf2, ⟨hx, hg⟩ | ⟨hx, hg⟩⟩
      · simp only [step, Cache.Decrement, hg, Option.some.injEq] at h
        obtain ⟨hA, hB, hC⟩ := triple_inj h
        rw [hA]
        exact ⟨rfl, hsz⟩
      · simp only [step, Cache.Decrement, hg, Option.some.injEq] at h
        obtain ⟨hA, hB, hC⟩ := triple_inj h
        rw [hA]
        refine ⟨rfl, ?_⟩
        rw [size_some hc] at hsz
        simp only [Cache.size]
        exact Nat.le_trans (List.length_filter_le _ _) hsz
      · simp only [step, Cache.Decrement, hg] at h
        match hdec2 : BytesToUint64 e.value with
        | none =>
          rw [hdec2] at h
          simp only [Option.some.injEq] at h
          obtain ⟨hA, hB, hC⟩ := triple_inj h
          rw [hA]
          refine ⟨rfl, ?_⟩
          simp only [Cache.size, moveToFront, hf2, List.length_cons]
          rw [size_some hc] at hsz
          have := filter_length_lt hf2
          omega
        | some m =>
          rw [hdec2] at h
          simp only [Cache.nextCasID, Option.some.injEq] at h
          obtain ⟨hA, hB, hC⟩ := triple_inj h
          rw [hA]
          obtain ⟨hm2, hs2⟩ := updateValueCas_bound
            { maxEntries := c.maxEntries, entries := some (moveToFront es k),
              casID := (c.casID + 1) % U64 } k
            (Uint64ToBytes ((m + (U64 - a % U64)) % U64)) ((c.casID + 1) % U64)
          refine ⟨hm2, ?_⟩
          rw [hs2]
          simp only [Cache.size, moveToFront, hf2, List.length_cons]
          rw [size_some hc] at hsz
          have := filter_length_lt hf2
          omega
    | delete k =>
      simp only [step, Option.some.injEq] at h
      obtain ⟨hA, hB, hC⟩ := triple_inj h
      rw [hA]
      obtain ⟨hm2, hs2⟩ := Delete_bound c k
      exact ⟨hm2, Nat.le_trans hs2 hsz⟩
    | flushAll =>
      simp only [step, Option.some.injEq] at h
      obtain ⟨hA, hB, hC⟩ := triple_inj h
      rw [hA]
      exact ⟨rfl, Nat.zero_le _⟩
  exact ⟨main.1, main.2, hevict⟩

/-- Witness for C3 at a full cache of capacity 1: inserting key "b" keeps
the size at 1, and the eviction clause instantiates with the evicted
back entry "a". -/
theorem C3_capacity_witness :
    ({ maxEntries := 1, entries := some [⟨"b", [2], 2, 0, 7⟩], casID := 2 } : Cache).maxEntries =
      1 ∧
    ({ maxEntries := 1, entries := some [⟨"b", [2], 2, 0, 7⟩], casID := 2 } : Cache).size ≤ 1 ∧
    (∀ k v t es back,
      (some [(⟨"a", [5], 1, 0, 0⟩ : Entry)] : Option (List Entry)) = some es →
      es.find? (fun e2 => e2.key == k) = none →
      es.length = 1 → es.getLast? = some back →
      Cache.Set { maxEntries := 1, entries := some [⟨"a", [5], 1, 0, 0⟩], casID := 1 } 7 k v t =
        some ({ maxEntries := 1,
                entries := some ((⟨k, v, 2, t, 7⟩ :: es).dropLast),
                casID := 2 },
          [⟨back.key, back.value, .LRUEviction⟩])) :=
  C3_capacity (Op.set "b" [2] 0) 7
    { maxEntries := 1, entries := some [⟨"a", [5], 1, 0, 0⟩], casID := 1 }
    { maxEntries := 1, entries := some [⟨"b", [2], 2, 0, 7⟩], casID := 2 }
    [⟨"a", [5], .LRUEviction⟩] none (by decide) (by decide) (by decide)

/-- C8 (amended): every Engine operation that completes with an error
leaves the cache exactly as it was — a failed Touch/Add/Replace/Cas or an
absent-key access returns the cache unchanged with no notifications —
with two exceptions: an access that discovers an expired entry removes it
and fires `TTLEviction` before failing with `NotFound`, and an
Increment/Decrement whose stored value fails to decode returns the decode
error with the touched entry already moved to the front of the recency
list (entry values and the cas counter unchanged). -/
theorem C8_failed_ops (op : Op) (now : Nat) (c c1 : Cache) (evs : List Evt) (er : Err)
    (h : step op now c = some (c1, evs, some er)) :
    (c1 = c ∧ evs = []) ∨
    (∃ es e, c.entries = some es ∧
      es.find? (fun e2 => e2.key == op.key) = some e ∧ isExpired now e = true ∧
      er = .NotFound ∧
      c1 = { c with entries := some (es.filter (fun e2 => !(e2.key == op.key))) } ∧
      evs = [⟨e.key, e.value, .TTLEviction⟩]) ∨
    (∃ es, c.entries = some es ∧ er = .DecodeErr ∧ evs = [] ∧
      c1 = { c with entries := some (moveToFront es op.key) }) := by
  cases op with
  | set k v t =>
    match hset : c.Set now k v t with
    | none => simp only [step, hset] at h; simp at h
    | some p => simp only [step, hset] at h; simp at h
  | touch k t =>
    match hl : c.mapLookup k with
    | some e =>
      simp only [step, Cache.Touch, hl] at h
      match hset : c.Set now k e.value t with
      | none => rw [hset] at h; simp at h
      | some p => rw [hset] at h; simp at h
    | none =>
      simp only [step, Cache.Touch, hl, Option.some.injEq] at h
      obtain ⟨hA, hB, hC⟩ := triple_inj h
      exact Or.inl ⟨hA, hB⟩
  | add k v t =>
    match hl : c.mapLookup k with
    | none =>
      simp only [step, Cache.Add, hl] at h
      match hset : c.Set now k v t with
      | none => rw [hset] at h; simp at h
      | some p => rw [hset] at h; simp at h
    | some e =>
      simp only [step, Cache.Add, hl, Option.some.injEq] at h
      obtain ⟨hA, hB, hC⟩ := triple_inj h
      exact Or.inl ⟨hA, hB⟩
  | replace k v t =>
    match hl : c.mapLookup k with
    | some e =>
      simp only [step, Cache.Replace, hl] at h
      match hset : c.Set now k v t with
      | none => rw [hset] at h; simp at h
      | some p => rw [hset] at h; simp at h
    | none =>
      simp only [step, Cache.Replace, hl, Option.some.injEq] at h
      obtain ⟨hA, hB, hC⟩ := triple_inj h
      exact Or.inl ⟨hA, hB⟩
  | cas k v t ver =>
    match hl : c.mapLookup k with
    | some e =>
      by_cases hcas : e.cas = ver
      · simp only [step, Cache.Cas, hl, if_pos hcas] at h
        match hset : c.Set now k v t with
        | none => rw [hset] at h; simp at h
        | some p => rw [hset] at h; simp at h
      · simp only [step, Cache.Cas, hl, if_neg hcas, Option.some.injEq] at h
        obtain ⟨hA, hB, hC⟩ := triple_inj h
        exact Or.inl ⟨hA, hB⟩
    | none =>
      simp only [step, Cache.Cas, hl, Option.some.injEq] at h
      obtain ⟨hA, hB, hC⟩ := triple_inj h
      exact Or.inl ⟨hA, hB⟩
  | get k =>
    rcases getElement_spec c now k with ⟨hl, hg⟩ | ⟨es, e, hc, hf, ⟨hx, hg⟩ | ⟨hx, hg⟩⟩
    · simp only [step, Cache.Get, hg, Option.some.injEq] at h
      obtain ⟨hA, hB, hC⟩ := triple_inj h
      exact Or.inl ⟨hA, hB⟩
    · simp only [step, Cache.Get, hg, Option.some.injEq] at h
      obtain ⟨hA, hB, hC⟩ := triple_inj h
      exact Or.inr (Or.inl ⟨es, e, hc, hf, hx, Option.some.inj hC, hA, hB⟩)
    · simp only [step, Cache.Get, hg] at h
      simp at h
  | gets k =>
    rcases getElement_spec c now k with ⟨hl, hg⟩ | ⟨es, e, hc, hf, ⟨hx, hg⟩ | ⟨hx, hg⟩⟩
    · simp only [step, Cache.Gets, hg, Option.some.injEq] at h
      obtain ⟨hA, hB, hC⟩ := triple_inj h
      exact Or.inl ⟨hA, hB⟩
    · simp only [step, Cache.Gets, hg, Option.some.injEq] at h
      obtain ⟨hA, hB, hC⟩ := triple_inj h
      exact Or.inr (Or.inl ⟨es, e, hc, hf, hx, Option.some.inj hC, hA, hB⟩)
    · simp only [step, Cache.Gets, hg] at h
      simp at h
  | append k v t =>
    rcases getElement_spec c now k with ⟨hl, hg⟩ | ⟨es, e, hc, hf, ⟨hx, hg⟩ | ⟨hx, hg⟩⟩
    · simp only [step, Cache.Append, hg, Option.some.injEq] at h
      obtain ⟨hA, hB, hC⟩ := triple_inj h
      exact Or.inl ⟨hA, hB⟩
    · simp only [step, Cache.Append, hg, Option.some.injEq] at h
      obtain ⟨hA, hB, hC⟩ := triple_inj h
      exact Or.inr (Or.inl ⟨es, e, hc, hf, hx, Option.some.inj hC, hA, hB⟩)
    · simp only [step, Cache.Append, hg] at h
      match hset : Cache.Set { c with entries := some (moveToFront es k) } now k (e.value ++ v) t with
      | none => rw [hset] at h; simp at h
      | some p => rw [hset] at h; simp at h
  | prepend k v t =>
    rcases getElement_spec c now k with ⟨hl, hg⟩ | ⟨es, e, hc, hf, ⟨hx, hg⟩ | ⟨hx, hg⟩⟩
    · simp only [step, Cache.Prepend, hg, Option.some.injEq] at h
      obtain ⟨hA, hB, hC⟩ := triple_inj h
      exact Or.inl ⟨hA, hB⟩
    · simp only [step, Cache.Prepend, hg, Option.some.injEq] at h
      obtain ⟨hA, hB, hC⟩ := triple_inj h
      exact Or.inr (Or.inl ⟨es, e, hc, hf, hx, Option.some.inj hC, hA, hB⟩)
    · simp only [step, Cache.Prepend, hg] at h
      match hset : Cache.Set { c with entries := some (moveToFront es k) } now k (v ++ e.value) t with
      | none => rw [hset] at h; simp at h
      | some p => rw [hset] at h; simp at h
  | increment k a =>
    rcases getElement_spec c now k with ⟨hl, hg⟩ | ⟨es, e, hc, hf, ⟨hx, hg⟩ | ⟨hx, hg⟩⟩
    · simp only [step, Cache.Increment, hg, Option.some.injEq] at h
      obtain ⟨hA, hB, hC⟩ := triple_inj h
      exact Or.inl ⟨hA, hB⟩
    · simp only [step, Cache.Increment, hg, Option.some.injEq] at h
      obtain ⟨hA, hB, hC⟩ := triple_inj h
      exact Or.inr (Or.inl ⟨es, e, hc, hf, hx, Option.some.inj hC, hA, hB⟩)
    · simp only [step, Cache.Increment, hg] at h
      match hdec : BytesToUint64 e.value with
      | none =>
        rw [hdec] at h
        simp only [Option.some.injEq] at h
        obtain ⟨hA, hB, hC⟩ := triple_inj h
        exact Or.inr (Or.inr ⟨es, hc, Option.some.inj hC, hB, hA⟩)
      | some m =>
        rw [hdec] at h
        simp at h
  | decrement k a =>
    rcases getElement_spec c now k with ⟨hl, hg⟩ | ⟨es, e, hc, hf, ⟨hx, hg⟩ | ⟨hx, hg⟩⟩
    · simp only [step, Cache.Decrement, hg, Option.some.injEq] at h
      obtain ⟨hA, hB, hC⟩ := triple_inj h
      exact Or.inl ⟨hA, hB⟩
    · simp only [step, Cache.Decrement, hg, Option.some.injEq] at h
      obtain ⟨hA, hB, hC⟩ := triple_inj h
      exact Or.inr (Or.inl ⟨es, e, hc, hf, hx, Option.some.inj hC, hA, hB⟩)
    · simp only [step, Cache.Decrement, hg] at h
      match hdec : BytesToUint64 e.value with
      | none =>
        rw [hdec] at h
        simp only [Option.some.injEq] at h
        obtain ⟨hA, hB, hC⟩ := triple_inj h
        exact Or.inr (Or.inr ⟨es, hc, Option.some.inj hC, hB, hA⟩)
      | some m =>
        rw [hdec] at h
        simp at h
  | delete k =>
    simp only [step, Option.some.injEq] at h
    obtain ⟨hA, hB, hC⟩ := triple_inj h
    simp at hC
  | flushAll =>
    simp only [step, Option.some.injEq] at h
    obtain ⟨hA, hB, hC⟩ := triple_inj h
    simp at hC

/-- C8 counterexample: `Increment` on a key holding an empty (undecodable)
value returns a decode error, yet the recency order has changed — the
touched entry moved to the front — where the claim demands the state be
exactly as before the call. -/
theorem C8_failed_ops_counterexample :
    step (Op.increment "b" 1) 0
        { maxEntries := 0, entries := some [⟨"a", [1], 1, 0, 0⟩, ⟨"b", [], 2, 0, 0⟩], casID := 2 } =
      some ({ maxEntries := 0, entries := some [⟨"b", [], 2, 0, 0⟩, ⟨"a", [1], 1, 0, 0⟩], casID := 2 },
        [], some .DecodeErr) ∧
    ({ maxEntries := 0, entries := some [⟨"b", [], 2, 0, 0⟩, ⟨"a", [1], 1, 0, 0⟩], casID := 2 } : Cache) ≠
      { maxEntries := 0, entries := some [⟨"a", [1], 1, 0, 0⟩, ⟨"b", [], 2, 0, 0⟩], casID := 2 } := by
  decide

/-- Witness for C8: a failed `Add` on a present key (ErrExists) leaves the
cache unchanged and fires no notification. -/
theorem C8_failed_ops_witness :
    (({ maxEntries := 0, entries := some [⟨"k", [7], 1, 0, 0⟩], casID := 1 } : Cache) =
        { maxEntries := 0, entries := some [⟨"k", [7], 1, 0, 0⟩], casID := 1 } ∧
      ([] : List Evt) = []) ∨
    (∃ es e, (some [(⟨"k", [7], 1, 0, 0⟩ : Entry)] : Option (List Entry)) = some es ∧
      es.find? (fun e2 => e2.key == "k") = some e ∧ isExpired 0 e = true ∧
      Err.Exists = .NotFound ∧
      ({ maxEntries := 0, entries := some [⟨"k", [7], 1, 0, 0⟩], casID := 1 } : Cache) =
        { maxEntries := 0, entries := some (es.filter (fun e2 => !(e2.key == "k"))), casID := 1 } ∧
      ([] : List Evt) = [⟨e.key, e.value, .TTLEviction⟩]) ∨
    (∃ es, (some [(⟨"k", [7], 1, 0, 0⟩ : Entry)] : Option (List Entry)) = some es ∧
      Err.Exists = .DecodeErr ∧ ([] : List Evt) = [] ∧
      ({ maxEntries := 0, entries := some [⟨"k", [7], 1, 0, 0⟩], casID := 1 } : Cache) =
        { maxEntries := 0, entries := some (moveToFront es "k"), casID := 1 }) :=
  C8_failed_ops (Op.add "k" [9] 0) 0
    { maxEntries := 0, entries := some [⟨"k", [7], 1, 0, 0⟩], casID := 1 }
    { maxEntries := 0, entries := some [⟨"k", [7], 1, 0, 0⟩], casID := 1 }
    [] .Exists (by decide)

end GrpcCache
